import Mathlib

/-!
# A shallow embedding of the localgoose document-mapping engine

This file embeds the data model and the operations of the localgoose
repository (a mongoose-like document mapper over JSON files) in Lean 4 and
proves properties of the embedding.

Conventions of the embedding:

* JavaScript runtime values are modelled by the inductive type `Value`.
  Numbers are modelled as exact rationals extended with `NaN` and the two
  infinities (`JsNum`); floating-point rounding plays no role in any of the
  properties below.
* A JavaScript `Date` object is represented by the ISO-8601 string that its
  `toISOString()` method would produce (a `Date` is determined by its
  millisecond time value, and `toISOString` is injective on valid dates).
* Plain objects and the documents stored in a collection are association
  lists `List (String × Value)`; JavaScript objects have unique keys and
  preserve insertion order, which the lists model directly.
* Behaviour supplied by JavaScript built-ins that the repository merely
  calls (RegExp matching, `Date` number/string coercion, float formatting,
  `new Date(string)` parsing) is kept abstract in a `JsExt` bundle that is
  passed to the functions needing it; every theorem is uniform in it.
* Strict equality (`===`) and `SameValueZero` on reference values (objects,
  arrays, dates) compare references in JavaScript.  Documents read from the
  store and criteria built by a caller never share references, so the
  embedding models reference equality on compound values as `false`.
-/

namespace Localgoose

/-- A JavaScript number: `NaN`, `+Infinity`, `-Infinity`, or a finite value
(modelled as an exact rational). -/
inductive JsNum where
  | nan : JsNum
  | posInf : JsNum
  | negInf : JsNum
  | fin (q : ℚ) : JsNum
  deriving DecidableEq, Repr

/-- A JavaScript runtime value as it occurs in this repository: primitives,
`Date` objects (represented by their `toISOString` rendering), arrays and
plain objects. -/
inductive Value where
  | undefined : Value
  | null : Value
  | bool (b : Bool) : Value
  | num (n : JsNum) : Value
  | str (s : String) : Value
  | date (iso : String) : Value
  | arr (xs : List Value) : Value
  | obj (fs : List (String × Value)) : Value
  deriving Repr

/-- A stored record / plain document: an association list of fields. -/
abbrev JsDoc := List (String × Value)

mutual

/-- Structural (decidable) equality on values. -/
def Value.beq : Value → Value → Bool
  | .undefined, .undefined => true
  | .null, .null => true
  | .bool a, .bool b => a == b
  | .num a, .num b => a == b
  | .str a, .str b => a == b
  | .date a, .date b => a == b
  | .arr xs, .arr ys => Value.beqList xs ys
  | .obj fs, .obj gs => Value.beqFields fs gs
  | _, _ => false

/-- Structural equality on lists of values. -/
def Value.beqList : List Value → List Value → Bool
  | [], [] => true
  | x :: xs, y :: ys => Value.beq x y && Value.beqList xs ys
  | _, _ => false

/-- Structural equality on field lists. -/
def Value.beqFields : List (String × Value) → List (String × Value) → Bool
  | [], [] => true
  | (k, v) :: fs, (k', v') :: gs => k == k' && Value.beq v v' && Value.beqFields fs gs
  | _, _ => false

end

mutual

theorem Value.beq_rfl : (v : Value) → Value.beq v v = true
  | .undefined => rfl
  | .null => rfl
  | .bool b => by simp [Value.beq]
  | .num n => by simp [Value.beq]
  | .str s => by simp [Value.beq]
  | .date s => by simp [Value.beq]
  | .arr xs => by rw [Value.beq]; exact Value.beqList_rfl xs
  | .obj fs => by rw [Value.beq]; exact Value.beqFields_rfl fs

theorem Value.beqList_rfl : (xs : List Value) → Value.beqList xs xs = true
  | [] => rfl
  | x :: xs => by
      rw [Value.beqList, Value.beq_rfl x, Value.beqList_rfl xs]; rfl

theorem Value.beqFields_rfl : (fs : List (String × Value)) → Value.beqFields fs fs = true
  | [] => rfl
  | (k, v) :: fs => by
      rw [Value.beqFields, Value.beq_rfl v, Value.beqFields_rfl fs]; simp

end

mutual

theorem Value.beq_eq : {v w : Value} → Value.beq v w = true → v = w
  | .undefined, w, h => by cases w <;> first | rfl | simp [Value.beq] at h
  | .null, w, h => by cases w <;> first | rfl | simp [Value.beq] at h
  | .bool a, w, h => by
      cases w <;> simp [Value.beq] at h; rw [h]
  | .num a, w, h => by
      cases w <;> simp [Value.beq] at h; rw [h]
  | .str a, w, h => by
      cases w <;> simp [Value.beq] at h; rw [h]
  | .date a, w, h => by
      cases w <;> simp [Value.beq] at h; rw [h]
  | .arr xs, w, h => by
      cases w <;> rw [Value.beq] at h
      case arr ys => rw [Value.beqList_eq h]
      all_goals cases h
  | .obj fs, w, h => by
      cases w <;> rw [Value.beq] at h
      case obj gs => rw [Value.beqFields_eq h]
      all_goals cases h

theorem Value.beqList_eq : {xs ys : List Value} → Value.beqList xs ys = true → xs = ys
  | [], [], _ => rfl
  | [], _ :: _, h => by simp [Value.beqList] at h
  | _ :: _, [], h => by simp [Value.beqList] at h
  | x :: xs, y :: ys, h => by
      rw [Value.beqList, Bool.and_eq_true] at h
      rw [Value.beq_eq h.1, Value.beqList_eq h.2]

theorem Value.beqFields_eq : {fs gs : List (String × Value)} →
    Value.beqFields fs gs = true → fs = gs
  | [], [], _ => rfl
  | [], _ :: _, h => by simp [Value.beqFields] at h
  | _ :: _, [], h => by simp [Value.beqFields] at h
  | (k, v) :: fs, (k', v') :: gs, h => by
      rw [Value.beqFields, Bool.and_eq_true, Bool.and_eq_true] at h
      obtain ⟨⟨hk, hv⟩, hrest⟩ := h
      rw [show k = k' from by simpa using hk, Value.beq_eq hv, Value.beqFields_eq hrest]

end

instance : DecidableEq Value := fun v w =>
  if h : Value.beq v w = true then .isTrue (Value.beq_eq h)
  else .isFalse (fun he => h (he ▸ Value.beq_rfl v))

/-- The JavaScript built-ins that the repository calls but does not define.
They are kept abstract; every theorem below is uniform in this bundle.
`dateValue s` is the time value of the `Date` whose ISO rendering is `s`
(`ToNumber` of a `Date`); `dateDefaultString` is its default-hint
`ToPrimitive` (the human-readable `toString`); `numToString` is
double-to-string formatting; `regexTest pattern options target` is
`new RegExp(pattern, options).test(target)`; `newDate s` is the value
produced by `new Date(s)` for a string `s`. -/
structure JsExt where
  dateValue : String → JsNum
  dateDefaultString : String → String
  numToString : JsNum → String
  regexTest : Value → Value → Value → Bool
  newDate : String → Value

/-- A concrete dummy instantiation of the built-ins, used only to state
closed counterexamples whose computations never consult them. -/
def dummyExt : JsExt where
  dateValue := fun _ => .nan
  dateDefaultString := fun s => s
  numToString := fun _ => ""
  regexTest := fun _ _ _ => false
  newDate := fun s => .date s

namespace JsNum

/-- IEEE-style `<` on JavaScript numbers: any comparison with `NaN` is
false. -/
def lt : JsNum → JsNum → Bool
  | .nan, _ => false
  | _, .nan => false
  | .negInf, .negInf => false
  | .negInf, _ => true
  | _, .negInf => false
  | .posInf, _ => false
  | .fin _, .posInf => true
  | .fin p, .fin q => decide (p < q)

/-- IEEE-style addition (`NaN` propagates, opposite infinities give
`NaN`). -/
def add : JsNum → JsNum → JsNum
  | .nan, _ => .nan
  | _, .nan => .nan
  | .posInf, .negInf => .nan
  | .negInf, .posInf => .nan
  | .posInf, _ => .posInf
  | _, .posInf => .posInf
  | .negInf, _ => .negInf
  | _, .negInf => .negInf
  | .fin p, .fin q => .fin (p + q)

/-- IEEE-style division (signed zeroes are not modelled: a finite value
divided by zero takes the sign of the numerator). -/
def div : JsNum → JsNum → JsNum
  | .nan, _ => .nan
  | _, .nan => .nan
  | .posInf, .posInf => .nan
  | .posInf, .negInf => .nan
  | .negInf, .posInf => .nan
  | .negInf, .negInf => .nan
  | .posInf, .fin q => if q < 0 then .negInf else .posInf
  | .negInf, .fin q => if q < 0 then .posInf else .negInf
  | .fin _, .posInf => .fin 0
  | .fin _, .negInf => .fin 0
  | .fin p, .fin q =>
      if q = 0 then (if p = 0 then .nan else if p < 0 then .negInf else .posInf)
      else .fin (p / q)

/-- `Math.min` on two numbers (`NaN` wins). -/
def min2 (a b : JsNum) : JsNum :=
  if a = .nan || b = .nan then .nan else if lt b a then b else a

/-- `Math.max` on two numbers (`NaN` wins). -/
def max2 (a b : JsNum) : JsNum :=
  if a = .nan || b = .nan then .nan else if lt a b then b else a

end JsNum

/-- JavaScript truthiness of a value. -/
def jsTruthy : Value → Bool
  | .undefined => false
  | .null => false
  | .bool b => b
  | .num .nan => false
  | .num (.fin q) => decide (q ≠ 0)
  | .num _ => true
  | .str s => decide (s ≠ "")
  | .date _ => true
  | .arr _ => true
  | .obj _ => true

/-- Whether `typeof v === 'object'` holds (`typeof null` is `'object'`). -/
def typeofIsObject : Value → Bool
  | .null => true
  | .date _ => true
  | .arr _ => true
  | .obj _ => true
  | _ => false

/-- `v == null` (loose): `v` is `null` or `undefined`. -/
def isNullish : Value → Bool
  | .null => true
  | .undefined => true
  | _ => false

/-!
The `String` primitives `startsWith`, `drop`, `splitOn`, `toNat?` and
`trim` are opaque to the kernel, so the following character-list
equivalents stand in for them in the embedding.
-/

/-- `s.startsWith('$')` on the character list. -/
def startsWithDollar (s : String) : Bool :=
  match s.data with
  | c :: _ => c = '$'
  | [] => false

/-- `s.slice(1)` / `s.drop 1` on the character list. -/
def strDropOne (s : String) : String :=
  String.mk (s.data.drop 1)

/-- `path.split('.')` on the character list. -/
def splitDotAux : List Char → List (List Char)
  | [] => [[]]
  | '.' :: rest => [] :: splitDotAux rest
  | c :: rest =>
      match splitDotAux rest with
      | g :: gs => (c :: g) :: gs
      | [] => [[c]]

/-- `path.split('.')`: the dot-separated components of a path. -/
def splitOnDot (s : String) : List String :=
  (splitDotAux s.data).map String.mk

/-- `String.toNat?` on the character list (used for canonical array
indices). -/
def strToNat? (s : String) : Option Nat :=
  if s.data ≠ [] ∧ s.data.all Char.isDigit then
    some (s.data.foldl (fun a c => a * 10 + (c.toNat - '0'.toNat)) 0)
  else none

/-- `String.trim` on the character list. -/
def strTrim (s : String) : String :=
  String.mk (((s.data.dropWhile Char.isWhitespace).reverse.dropWhile
    Char.isWhitespace).reverse)

/-- `ToString` of a number-or-string fragment of `Number(string)` parsing:
parses an optional sign, digits, an optional fraction and an optional
decimal exponent.  Hexadecimal/binary/octal literals and `Infinity`
are not produced by this repository's data and parse to `NaN` here. -/
def parseDecimal (cs : List Char) : Option ℚ :=
  let (intPart, rest) := cs.span Char.isDigit
  let (fracPart, rest') :=
    match rest with
    | '.' :: t => t.span Char.isDigit
    | _ => ([], rest)
  let expo : Option Int :=
    match rest' with
    | [] => some 0
    | e :: t =>
        if e = 'e' || e = 'E' then
          let (sgn, digits) :=
            match t with
            | '-' :: d => ((-1 : Int), d)
            | '+' :: d => ((1 : Int), d)
            | d => ((1 : Int), d)
          if digits ≠ [] && digits.all Char.isDigit then
            some (sgn * (digits.foldl (fun a c => a * 10 + (c.toNat - '0'.toNat)) 0 : Nat))
          else none
        else none
  if intPart = [] && fracPart = [] then none
  else
    match expo with
    | none => none
    | some e =>
        let iv : ℕ := intPart.foldl (fun a c => a * 10 + (c.toNat - '0'.toNat)) 0
        let fv : ℕ := fracPart.foldl (fun a c => a * 10 + (c.toNat - '0'.toNat)) 0
        let base : ℚ := (iv : ℚ) + (fv : ℚ) / ((10 : ℚ) ^ fracPart.length)
        some (base * (10 : ℚ) ^ e)

/-- `Number(string)`: trimmed empty string is `0`, an optionally signed
decimal literal is its value, anything else is `NaN`. -/
def strToNumber (s : String) : JsNum :=
  let t := strTrim s
  if t = "" then .fin 0
  else
    let (neg, body) :=
      match t.data with
      | '-' :: r => (true, r)
      | '+' :: r => (false, r)
      | r => (false, r)
    match parseDecimal body with
    | some q => .fin (if neg then -q else q)
    | none => .nan

mutual

/-- `ToString` of a value (`Array.prototype.toString` joins elements with
commas, plain objects render as `[object Object]`). -/
def jsToString (E : JsExt) : Value → String
  | .undefined => "undefined"
  | .null => "null"
  | .bool b => if b then "true" else "false"
  | .num n => E.numToString n
  | .str s => s
  | .date s => E.dateDefaultString s
  | .arr xs => jsToStringJoin E xs
  | .obj _ => "[object Object]"

/-- `Array.prototype.join(',')`: `null`/`undefined` elements render empty. -/
def jsToStringJoin (E : JsExt) : List Value → String
  | [] => ""
  | [x] =>
      match x with
      | .undefined => ""
      | .null => ""
      | v => jsToString E v
  | x :: y :: t =>
      (match x with
       | .undefined => ""
       | .null => ""
       | v => jsToString E v) ++ "," ++ jsToStringJoin E (y :: t)

end

/-- `ToPrimitive` with number hint (`Date` prefers its time value). -/
def toPrimNumber (E : JsExt) : Value → Value
  | .date s => .num (E.dateValue s)
  | .arr xs => .str (jsToString E (.arr xs))
  | .obj fs => .str (jsToString E (.obj fs))
  | v => v

/-- `ToPrimitive` with default hint (`Date` prefers its string form). -/
def toPrimDefault (E : JsExt) : Value → Value
  | .date s => .str (E.dateDefaultString s)
  | .arr xs => .str (jsToString E (.arr xs))
  | .obj fs => .str (jsToString E (.obj fs))
  | v => v

/-- `ToNumber` of a value. -/
def jsToNumber (E : JsExt) : Value → JsNum
  | .undefined => .nan
  | .null => .fin 0
  | .bool b => .fin (if b then 1 else 0)
  | .num n => n
  | .str s => strToNumber s
  | .date s => E.dateValue s
  | .arr xs => strToNumber (jsToString E (.arr xs))
  | .obj fs => strToNumber (jsToString E (.obj fs))

/-- The abstract relational comparison `a < b`. -/
def jsLt (E : JsExt) (a b : Value) : Bool :=
  match toPrimNumber E a, toPrimNumber E b with
  | .str sa, .str sb => decide (sa < sb)
  | pa, pb => JsNum.lt (jsToNumber E pa) (jsToNumber E pb)

/-- `a > b` is the relational comparison `b < a`. -/
def jsGt (E : JsExt) (a b : Value) : Bool := jsLt E b a

/-- `a <= b`: the negation of `b < a`, false when a `NaN` is involved. -/
def jsLe (E : JsExt) (a b : Value) : Bool :=
  match toPrimNumber E a, toPrimNumber E b with
  | .str sa, .str sb => decide (sa ≤ sb)
  | pa, pb =>
      let x := jsToNumber E pa
      let y := jsToNumber E pb
      if x = .nan || y = .nan then false else ! JsNum.lt y x

/-- `a >= b` is `b <= a`. -/
def jsGe (E : JsExt) (a b : Value) : Bool := jsLe E b a

/-- Strict equality `===`.  Reference values (dates, arrays, objects)
compare by reference in JavaScript; stored documents and caller-built
criteria never share references, so the embedding yields `false` there. -/
def jsStrictEq : Value → Value → Bool
  | .undefined, .undefined => true
  | .null, .null => true
  | .bool a, .bool b => a == b
  | .num .nan, .num _ => false
  | .num _, .num .nan => false
  | .num a, .num b => a == b
  | .str a, .str b => a == b
  | _, _ => false

/-- `SameValueZero`, the equality used by `Array.prototype.includes` and
`Map` keys: like `===` but `NaN` equals `NaN`. -/
def sameValueZero : Value → Value → Bool
  | .num a, .num b => a == b
  | a, b => jsStrictEq a b

/-- The `+` operator. -/
def jsAdd (E : JsExt) (a b : Value) : Value :=
  match toPrimDefault E a, toPrimDefault E b with
  | .str sa, pb => .str (sa ++ jsToString E pb)
  | pa, .str sb => .str (jsToString E pa ++ sb)
  | pa, pb => .num (JsNum.add (jsToNumber E pa) (jsToNumber E pb))

/-- The `/` operator. -/
def jsDiv (E : JsExt) (a b : Value) : Value :=
  .num (JsNum.div (jsToNumber E (toPrimNumber E a)) (jsToNumber E (toPrimNumber E b)))

/-- `Math.min` on two arguments. -/
def jsMathMin (E : JsExt) (a b : Value) : Value :=
  .num (JsNum.min2 (jsToNumber E a) (jsToNumber E b))

/-- `Math.max` on two arguments. -/
def jsMathMax (E : JsExt) (a b : Value) : Value :=
  .num (JsNum.max2 (jsToNumber E a) (jsToNumber E b))

/-- Property read `obj[key]` on a plain object: the first binding of the
key, `undefined` when absent. -/
def lookupField (fs : List (String × Value)) (k : String) : Value :=
  match fs.find? (fun f => f.1 == k) with
  | some f => f.2
  | none => .undefined

/-- Property write `obj[key] = v`: overwrite in place when the key exists,
append otherwise (JavaScript objects keep insertion order). -/
def setField (fs : List (String × Value)) (k : String) (v : Value) :
    List (String × Value) :=
  match fs with
  | [] => [(k, v)]
  | (k', v') :: rest =>
      if k' = k then (k, v) :: rest else (k', v') :: setField rest k v

/-- `Object.entries` of a value as used by `_matchQuery`'s operator branch:
an object's own fields, an array's index/element pairs, and nothing for a
`Date` (it has no own enumerable properties). -/
def entriesOf : Value → List (String × Value)
  | .obj fs => fs
  | .arr xs => (xs.enum.map fun p => (toString p.1, p.2))
  | _ => []

namespace Model

/-- One operator entry of `Model._matchQuery`'s operator branch, translated
from the `switch` statement.  `value` is the whole criterion (consulted by
`$regex` for its `$options` sibling).  A non-array `$in`/`$nin` operand
throws a `TypeError` in JavaScript; the embedding returns `false` there and
the theorems below restrict to well-formed operands. -/
def matchOperatorEntry (E : JsExt) (doc : JsDoc) (key : String) (value : Value)
    (operator : String) (operand : Value) : Bool :=
  match operator with
  | "$gt" => jsGt E (lookupField doc key) operand
  | "$gte" => jsGe E (lookupField doc key) operand
  | "$lt" => jsLt E (lookupField doc key) operand
  | "$lte" => jsLe E (lookupField doc key) operand
  | "$ne" => ! jsStrictEq (lookupField doc key) operand
  | "$in" =>
      let docValue := match lookupField doc key with
        | .arr xs => xs
        | v => [v]
      (match operand with
       | .arr items => items.any (fun item => docValue.any (fun dv => sameValueZero dv item))
       | _ => false)
  | "$nin" =>
      let docVal := match lookupField doc key with
        | .arr xs => xs
        | v => [v]
      (match operand with
       | .arr items => ! items.any (fun item => docVal.any (fun dv => sameValueZero dv item))
       | _ => false)
  | "$regex" =>
      E.regexTest operand (lookupField (entriesOf value) "$options") (lookupField doc key)
  | _ => false

/-- One condition entry of `Model._matchQuery`: the operator branch is taken
when the criterion is truthy and `typeof` yields `'object'` (so for plain
objects, arrays and dates but not for `null`); otherwise the stored value
must be strictly equal to the criterion. -/
def matchCondition (E : JsExt) (doc : JsDoc) (key : String) (value : Value) : Bool :=
  if jsTruthy value && typeofIsObject value then
    (entriesOf value).all (fun e => matchOperatorEntry E doc key value e.1 e.2)
  else jsStrictEq (lookupField doc key) value

/-- `Model._matchQuery(doc, query)`: every condition key must be satisfied. -/
def _matchQuery (E : JsExt) (doc : JsDoc) (query : JsDoc) : Bool :=
  query.all (fun e => matchCondition E doc e.1 e.2)

/-- `Model._find(conditions)`: filter the stored collection by the shared
predicate. -/
def _find (E : JsExt) (stored : List JsDoc) (conditions : JsDoc) : List JsDoc :=
  stored.filter (fun doc => _matchQuery E doc conditions)

/-- `Model.updateOne(conditions, update)`: shallow-merge the update document
into the first matching record and refresh `updatedAt`; the result pairs the
new stored collection with `modifiedCount`. -/
def updateOne (E : JsExt) (stored : List JsDoc) (conditions update : JsDoc)
    (now : Value) : List JsDoc × Nat :=
  match stored.findIdx? (fun doc => _matchQuery E doc conditions) with
  | some index =>
      let merged := setField (update.foldl (fun d e => setField d e.1 e.2)
        (stored.getD index [])) "updatedAt" now
      (stored.set index merged, 1)
  | none => (stored, 0)

end Model

/-- A schema validator entry: the predicate (which receives the value, with
the record as `this`-context, and may return any value or throw), its
message, and the `isRequired` marker.  Only synchronous validators are
modelled; the repository's promise branch is outside every claim below. -/
structure Validator where
  run : Value → JsDoc → Except Unit Value
  message : String
  isRequiredV : Bool

/-- A `SchemaType`: field path, validator chain, and the setter chain that
`cast` applies (a setter may throw, carrying an error message). -/
structure SchemaType where
  path : String
  validators : List Validator
  setters : List (Value → Except String Value)

namespace SchemaType

/-- The zero-argument form of `SchemaType.required()`: whether some
registered validator carries the `isRequired` marker. -/
def requiredB (st : SchemaType) : Bool :=
  st.validators.any (·.isRequiredV)

/-- The built-in required validator that `required(true)` prepends:
`v => v != null` with message ``Path `<path>` is required.``. -/
def requiredValidator (path : String) : Validator where
  run := fun v _ => .ok (.bool (! isNullish v))
  message := "Path `" ++ path ++ "` is required."
  isRequiredV := true

/-- `SchemaType.required(value)` with a truthy argument: prepend the
built-in required validator to the validator chain. -/
def requiredSet (st : SchemaType) : SchemaType :=
  { st with validators := requiredValidator st.path :: st.validators }

/-- `SchemaType.cast(val)`: nullish values pass through; otherwise the
setter chain runs left to right (a setter may throw). -/
def cast (st : SchemaType) (val : Value) : Except String Value :=
  if isNullish val then .ok val
  else st.setters.foldlM (fun value setter => setter value) val

/-- Whether one validator fails on a value: its result is strictly `false`,
or it throws (the repository funnels a throw into `validatorWrapper(false)`). -/
def validatorFails (vd : Validator) (value : Value) (context : JsDoc) : Bool :=
  match vd.run value context with
  | .ok r => r == .bool false
  | .error _ => true

/-- The loop body of `SchemaType.doValidate`: walk every validator, keeping
the single error slot, which is set by the first validator whose result is
strictly `false` (or which throws) and never overwritten. -/
def doValidateLoop (value : Value) (context : JsDoc) :
    List Validator → Option String → Option String
  | [], err => err
  | vd :: rest, err =>
      let err' := if validatorFails vd value context && err.isNone
        then some vd.message else err
      doValidateLoop value context rest err'

/-- `SchemaType.doValidate(value, fn, context)` for synchronous validators:
the single value reported to `fn` (`none` models `fn(null)`). -/
def doValidate (st : SchemaType) (value : Value) (context : JsDoc) : Option String :=
  if st.validators.length = 0 then none
  else doValidateLoop value context st.validators none

end SchemaType

/-- One entry of `Schema.definition` as consumed by `Model._createOne`:
an optional default (a producer default is modelled by the value it
produces for this call) and whether the declared type is `Date`. -/
structure FieldDef where
  defaultVal : Option Value
  isDateType : Bool
  deriving DecidableEq

/-- A schema as consumed by `Model._createOne` and `Schema.validate`:
the parsed definition entries and the `_paths` map, in declaration order. -/
structure Schema where
  definition : List (String × FieldDef)
  paths : List (String × SchemaType)

namespace Schema

/-- `Schema.validate(data)`: walk every field definition, collecting at most
one representative error string per field. -/
def validate (schema : Schema) (data : JsDoc) : List String :=
  schema.paths.foldl (fun errors e =>
    let path := e.1
    let schemaType := e.2
    if schemaType.requiredB && isNullish (lookupField data path) then
      errors ++ [path ++ " is required"]
    else if ! isNullish (lookupField data path) then
      match schemaType.cast (lookupField data path) with
      | .ok value =>
          match schemaType.doValidate value data with
          | some msg => errors ++ [msg]
          | none => errors
      | .error msg => errors ++ [path ++ " validation failed: " ++ msg]
    else errors) []

/-- Modelled from the spec sentence for C2: the error strings that
`Schema.validate` contributes for one field definition, independently of
every other field — `"<path> is required"` when a required field is absent,
otherwise at most one representative cast/validator error for a present
value. -/
def fieldErrors (data : JsDoc) (e : String × SchemaType) : List String :=
  if e.2.requiredB && isNullish (lookupField data e.1) then [e.1 ++ " is required"]
  else if ! isNullish (lookupField data e.1) then
    match e.2.cast (lookupField data e.1) with
    | .ok value =>
        match e.2.doValidate value data with
        | some msg => [msg]
        | none => []
    | .error msg => [e.1 ++ " validation failed: " ++ msg]
  else []

end Schema

namespace Model

/-- The defaulting pass of `Model._createOne`: every field of the schema
definition that is strictly `undefined` in the input and has a default is
set to the default. -/
def applyDefaults (schema : Schema) (data : JsDoc) : JsDoc :=
  schema.definition.foldl (fun d e =>
    match e.2.defaultVal with
    | some dflt => if lookupField d e.1 = .undefined then setField d e.1 dflt else d
    | none => d) data

/-- The date-coercion pass of `Model._createOne`: a string value of a
`Date`-typed field is replaced by `new Date(string)`. -/
def coerceDates (E : JsExt) (schema : Schema) (data : JsDoc) : JsDoc :=
  schema.definition.foldl (fun d e =>
    if e.2.isDateType then
      match lookupField d e.1 with
      | .str s => setField d e.1 (E.newDate s)
      | _ => d
    else d) data

/-- The new document built by `Model._createOne`:
`{ _id: freshId, ...defaultedData, createdAt: now, updatedAt: now }`.
Spread order means a caller-supplied `_id` overrides the fresh one. -/
def newDocOf (defaulted : JsDoc) (freshId : String) (now : Value) : JsDoc :=
  setField (setField (defaulted.foldl (fun d e => setField d e.1 e.2)
    [("_id", .str freshId)]) "createdAt" now) "updatedAt" now

/-- `Model._createOne(data)`: apply defaults and date coercion, validate
(throwing the joined error strings when validation fails — nothing is
stored in that case), then append the new document to the collection.
Save middleware is not modelled: it runs only after validation passes and
no claim depends on it.  The result is the new stored collection and the
new document. -/
def _createOne (E : JsExt) (schema : Schema) (stored : List JsDoc)
    (freshId : String) (now : Value) (data : JsDoc) :
    Except String (List JsDoc × JsDoc) :=
  let defaultedData := coerceDates E schema (applyDefaults schema data)
  let errors := schema.validate defaultedData
  if errors ≠ [] then .error (String.intercalate ", " errors)
  else
    let newDoc := newDocOf defaultedData freshId now
    .ok (stored ++ [newDoc], newDoc)

/-- The stored collection after `Model._createOne`: unchanged when creation
threw. -/
def storedAfterCreate (E : JsExt) (schema : Schema) (stored : List JsDoc)
    (freshId : String) (now : Value) (data : JsDoc) : List JsDoc :=
  match _createOne E schema stored freshId now data with
  | .ok p => p.1
  | .error _ => stored

end Model

/-- A `Query` as built by `Model.find` and the chainable builder calls.
`_skip`/`_limit` is `null` until the corresponding call; claims quantify
over non-negative integers, so they are modelled as `Option Nat`
(`some 0` is falsy, like JavaScript `0`). -/
structure Query where
  conditions : JsDoc := []
  _sort : List (String × Int) := []
  _skip : Option Nat := none
  _limit : Option Nat := none

namespace Query

/-- `Query.skip(n)`. -/
def skip (q : Query) (n : Nat) : Query := { q with _skip := some n }

/-- `Query.limit(n)`. -/
def limit (q : Query) (n : Nat) : Query := { q with _limit := some n }

/-- The sort comparator of `Query.exec`: first key that compares unequal
decides. -/
def sortCompare (E : JsExt) (spec : List (String × Int)) (a b : JsDoc) : Int :=
  match spec with
  | [] => 0
  | (field, order) :: rest =>
      let aVal := lookupField a field
      let bVal := lookupField b field
      if jsLt E aVal bVal then -1 * order
      else if jsLt E bVal aVal then 1 * order
      else sortCompare E rest a b

/-- The sort step of `Query.exec`: `docs.sort(comparator)` runs only when a
sort spec is present (modern `Array.prototype.sort` is stable, modelled by
a stable merge sort). -/
def sortStage (E : JsExt) (spec : List (String × Int)) (docs : List JsDoc) : List JsDoc :=
  if spec ≠ [] then docs.mergeSort (fun a b => sortCompare E spec a b ≤ 0) else docs

/-- The skip step of `Query.exec`: `if (this._skip) docs = docs.slice(s)` —
a `null` or zero (falsy) skip leaves the list alone. -/
def applySkip (sk : Option Nat) (docs : List JsDoc) : List JsDoc :=
  match sk with
  | some s => if s ≠ 0 then docs.drop s else docs
  | none => docs

/-- The limit step of `Query.exec`: `if (this._limit) docs = docs.slice(0, l)`
— a `null` or zero (falsy) limit leaves the list alone. -/
def applyLimit (lim : Option Nat) (docs : List JsDoc) : List JsDoc :=
  match lim with
  | some l => if l ≠ 0 then docs.take l else docs
  | none => docs

/-- `Query.exec()` down to the record level: filter by the shared predicate,
stable-sort when a sort spec is present, then apply skip and limit, each
only when truthy.  (Each surviving record is then wrapped in a `Document`
whose `_doc` is a field-copy of the record; the wrapping preserves the
sequence, so the embedding returns the records.) -/
def exec (E : JsExt) (q : Query) (stored : List JsDoc) : List JsDoc :=
  applyLimit q._limit (applySkip q._skip
    (sortStage E q._sort (Model._find E stored q.conditions)))

end Query

namespace QueryBuilder

/-- `Query.where(path)` followed by `QueryBuilder.exists(val)` (source name
`exists`, renamed because `exists` is reserved in Lean): writes an
`{ $exists: val }` criterion for the path. -/
def existsCondition (q : Query) (path : String) (val : Bool) : Query :=
  { q with conditions := setField q.conditions path (.obj [("$exists", .bool val)]) }

end QueryBuilder

namespace SpecC1

/-- Modelled from the spec sentence for C1: one operator entry is satisfied
when it is one of the eight known operators and its comparison holds —
`$in`/`$nin` treat a scalar stored value as a one-element set, `$regex`
reads the sibling `$options` key for flags — and an unknown operator entry
(including the auxiliary `$options` entry itself) evaluates to `false`. -/
def operatorSatisfied (E : JsExt) (doc : JsDoc) (key : String)
    (criterion : List (String × Value)) (operator : String) (operand : Value) : Bool :=
  match operator with
  | "$gt" => jsGt E (lookupField doc key) operand
  | "$gte" => jsGe E (lookupField doc key) operand
  | "$lt" => jsLt E (lookupField doc key) operand
  | "$lte" => jsLe E (lookupField doc key) operand
  | "$ne" => ! jsStrictEq (lookupField doc key) operand
  | "$in" =>
      let storedSet := match lookupField doc key with
        | .arr xs => xs
        | v => [v]
      (match operand with
       | .arr items => items.any (fun item => storedSet.any (fun dv => sameValueZero dv item))
       | _ => false)
  | "$nin" =>
      let storedSet := match lookupField doc key with
        | .arr xs => xs
        | v => [v]
      (match operand with
       | .arr items => ! items.any (fun item => storedSet.any (fun dv => sameValueZero dv item))
       | _ => false)
  | "$regex" =>
      E.regexTest operand (lookupField criterion "$options") (lookupField doc key)
  | _ => false

/-- Modelled from the spec sentence for C1: a condition key is satisfied
when the criterion is a plain object and every one of its operator entries
is, or when the criterion is not an object and the stored value is exactly
equal to it. -/
def conditionSatisfied (E : JsExt) (doc : JsDoc) (key : String) (value : Value) : Bool :=
  match value with
  | .obj fs => fs.all (fun e => operatorSatisfied E doc key fs e.1 e.2)
  | v => jsStrictEq (lookupField doc key) v

/-- Modelled from the spec sentence for C1: a record matches when every
top-level condition key is satisfied (all keys ANDed). -/
def matchQuerySpec (E : JsExt) (doc : JsDoc) (query : JsDoc) : Bool :=
  query.all (fun e => conditionSatisfied E doc e.1 e.2)

/-- The shape restriction under which the C1 claim speaks: each criterion
value is a plain object or a non-object (the claim assigns no meaning to
array- or date-valued criteria). -/
def criterionShapeOk : Value → Bool
  | .arr _ => false
  | .date _ => false
  | _ => true

end SpecC1

namespace Aggregate

/-- One step of `Aggregate._getFieldValue`'s reduce:
`(obj, key) => obj && obj[key]`.  Property reads model array/string `length`
and canonical numeric indices; other property reads on primitives yield
`undefined`. -/
def getStep (v : Value) (key : String) : Value :=
  if ! jsTruthy v then v
  else
    match v with
    | .obj fs => lookupField fs key
    | .arr xs =>
        if key = "length" then .num (.fin xs.length)
        else
          match strToNat? key with
          | some i =>
              if toString i = key then
                match xs.get? i with
                | some x => x
                | none => .undefined
              else .undefined
          | none => .undefined
    | .str s =>
        if key = "length" then .num (.fin s.length)
        else
          match strToNat? key with
          | some i =>
              if toString i = key then
                match s.data.get? i with
                | some c => .str (String.mk [c])
                | none => .undefined
              else .undefined
          | none => .undefined
    | _ => .undefined

/-- `Aggregate._getFieldValue(doc, path)`: dot-path traversal from the
record. -/
def _getFieldValue (doc : JsDoc) (path : String) : Value :=
  (splitOnDot path).foldl getStep (.obj doc)

/-- `Aggregate._evaluateExpression(expr, doc)`: a string starting with `$`
is a field reference, anything else is a literal. -/
def _evaluateExpression (doc : JsDoc) (expr : Value) : Value :=
  match expr with
  | .str s => if startsWithDollar s then _getFieldValue doc (strDropOne s) else .str s
  | v => v

/-- `Object.keys(spec)[0]` paired with `spec[Object.keys(spec)[0]]`. -/
def firstEntry : Value → Option (String × Value)
  | .obj (e :: _) => some e
  | _ => none

/-- `Aggregate._initializeAccumulator(accumulator)`: seed per accumulator
kind; unknown kinds (the `default` branch — in particular `$push`, which
has no case) seed `null`. -/
def _initializeAccumulator (accumulator : Value) : Value :=
  match firstEntry accumulator with
  | some e =>
      match e.1 with
      | "$sum" => .num (.fin 0)
      | "$avg" => .obj [("sum", .num (.fin 0)), ("count", .num (.fin 0))]
      | "$min" => .num .posInf
      | "$max" => .num .negInf
      | _ => .null
  | none => .null

/-- `Aggregate._updateAccumulator(group, field, spec, doc)`: fold one record
into one accumulator field; operators without a case (in particular `$push`)
leave the group untouched. -/
def _updateAccumulator (E : JsExt) (group : List (String × Value)) (field : String)
    (spec : Value) (doc : JsDoc) : List (String × Value) :=
  match firstEntry spec with
  | none => group
  | some e =>
      let value := _evaluateExpression doc e.2
      match e.1 with
      | "$sum" => setField group field (jsAdd E (lookupField group field) value)
      | "$avg" =>
          match lookupField group field with
          | .obj fs =>
              let fs1 := setField fs "sum" (jsAdd E (lookupField fs "sum") value)
              let fs2 := setField fs1 "count"
                (.num (JsNum.add (jsToNumber E (lookupField fs1 "count")) (.fin 1)))
              let fs3 := setField fs2 "value"
                (jsDiv E (lookupField fs2 "sum") (lookupField fs2 "count"))
              setField group field (.obj fs3)
          | _ => group
      | "$min" => setField group field (jsMathMin E (lookupField group field) value)
      | "$max" => setField group field (jsMathMax E (lookupField group field) value)
      | _ => group

/-- The grouping key of one record: the literal `null` grouping `_id` is
encoded as the string `'null'`; otherwise the `_id` expression is
evaluated against the record. -/
def groupKeyOf (grouping : JsDoc) (doc : JsDoc) : Value :=
  if jsStrictEq (lookupField grouping "_id") .null then .str "null"
  else _evaluateExpression doc (lookupField grouping "_id")

/-- The freshly seeded accumulator record of one group (every non-`_id`
entry of the grouping spec). -/
def initGroup (grouping : JsDoc) : List (String × Value) :=
  grouping.foldl (fun g e =>
    if e.1 = "_id" then g else setField g e.1 (_initializeAccumulator e.2)) []

/-- Fold one record into every accumulator field of a group. -/
def updateGroupFields (E : JsExt) (grouping : JsDoc)
    (group : List (String × Value)) (doc : JsDoc) : List (String × Value) :=
  grouping.foldl (fun g e =>
    if e.1 = "_id" then g else _updateAccumulator E g e.1 e.2 doc) group

/-- Update the first group whose key `SameValueZero`-matches. -/
def groupsUpdate (key : Value) (f : List (String × Value) → List (String × Value)) :
    List (Value × List (String × Value)) → List (Value × List (String × Value))
  | [] => []
  | p :: rest =>
      if sameValueZero p.1 key then (p.1, f p.2) :: rest
      else p :: groupsUpdate key f rest

/-- `Map.prototype.has` under `SameValueZero`. -/
def groupsHas (key : Value) (groups : List (Value × List (String × Value))) : Bool :=
  groups.any (fun p => sameValueZero p.1 key)

/-- One iteration of `Aggregate._group`'s main loop: seed the group on
first sight of its key, then fold the record into its accumulators.
(`groups.get(key)` right after `groups.set(key, group)` always finds the
just-inserted group, which the `else` branch reproduces directly.) -/
def groupsStep (E : JsExt) (grouping : JsDoc)
    (groups : List (Value × List (String × Value))) (doc : JsDoc) :
    List (Value × List (String × Value)) :=
  let key := groupKeyOf grouping doc
  if groupsHas key groups then
    groupsUpdate key (fun g => updateGroupFields E grouping g doc) groups
  else groups ++ [(key, updateGroupFields E grouping (initGroup grouping) doc)]

/-- `Aggregate._group(docs, grouping)`: fold every record into the insertion
ordered group map, then emit `{ _id: decodedKey, ...group }` per group,
where a key that is strictly equal to the string `'null'` decodes to the
literal `null`. -/
def _group (E : JsExt) (docs : List JsDoc) (grouping : JsDoc) : List JsDoc :=
  (docs.foldl (groupsStep E grouping) []).map (fun p =>
    ("_id", if jsStrictEq p.1 (.str "null") then .null else p.1) :: p.2)

/-- The keys of `docs` in first-seen order, deduplicated by
`SameValueZero`. -/
def firstSeenKeys (keys : List Value) : List Value :=
  keys.foldl (fun ks k => if ks.any (fun k' => sameValueZero k' k) then ks else ks ++ [k]) []

/-- Modelled from the spec sentence for C3: one output record per distinct
group key in first-seen order, the key reinstated at `_id` (decoding the
`'null'` encoding), and each group's accumulator fields obtained by seeding
once and folding in exactly that group's records in input order. -/
def groupSpec (E : JsExt) (docs : List JsDoc) (grouping : JsDoc) : List JsDoc :=
  (firstSeenKeys (docs.map (groupKeyOf grouping))).map (fun k =>
    ("_id", if jsStrictEq k (.str "null") then .null else k) ::
      (docs.filter (fun d => sameValueZero k (groupKeyOf grouping d))).foldl
        (fun g d => updateGroupFields E grouping g d) (initGroup grouping))

/-- Primitive (non-reference) values: the values on which `SameValueZero`
is reflexive, so that "distinct key" is meaningful. -/
def isPrimitiveValue : Value → Bool
  | .date _ => false
  | .arr _ => false
  | .obj _ => false
  | _ => true

end Aggregate

/-- The reviver test of `readJSON`:
`/^\d{4}-\d{2}-\d{2}T\d{2}:\d{2}:\d{2}.\d{3}Z$/` — note the unescaped dot,
which matches any character other than a line terminator. -/
def isoLike (s : String) : Bool :=
  match s.data with
  | [y1, y2, y3, y4, h1, m1, m2, h2, d1, d2, t, hh1, hh2, c1, n1, n2, c2,
     s1, s2, dot, f1, f2, f3, z] =>
      y1.isDigit && y2.isDigit && y3.isDigit && y4.isDigit &&
      h1 = '-' && m1.isDigit && m2.isDigit && h2 = '-' &&
      d1.isDigit && d2.isDigit && t = 'T' &&
      hh1.isDigit && hh2.isDigit && c1 = ':' &&
      n1.isDigit && n2.isDigit && c2 = ':' &&
      s1.isDigit && s2.isDigit &&
      !(dot = '\n' || dot = '\r' || dot = '\u2028' || dot = '\u2029') &&
      f1.isDigit && f2.isDigit && f3.isDigit && z = 'Z'
  | _ => false

/-- What `JSON.stringify` writes for a non-finite number. -/
def jsonNumOrNull : JsNum → Value
  | .fin q => .num (.fin q)
  | _ => .null

mutual

/-- The value written by `writeJSON`'s `JSON.stringify` with its replacer:
dates become their ISO strings (`toISOString` runs through `toJSON` before
the replacer, with the same result), non-finite numbers serialize as
`null`, `undefined` array elements as `null`, and `undefined` object fields
are dropped. -/
def jsonReplace : Value → Value
  | .date s => .str s
  | .num n => jsonNumOrNull n
  | .arr xs => .arr (jsonReplaceList xs)
  | .obj fs => .obj (jsonReplaceFields fs)
  | .undefined => .undefined
  | .null => .null
  | .bool b => .bool b
  | .str s => .str s

/-- Array elements under `JSON.stringify` (`undefined` becomes `null`). -/
def jsonReplaceList : List Value → List Value
  | [] => []
  | .undefined :: xs => .null :: jsonReplaceList xs
  | x :: xs => jsonReplace x :: jsonReplaceList xs

/-- Object fields under `JSON.stringify` (`undefined` fields are dropped). -/
def jsonReplaceFields : List (String × Value) → List (String × Value)
  | [] => []
  | (_, .undefined) :: fs => jsonReplaceFields fs
  | (k, v) :: fs => (k, jsonReplace v) :: jsonReplaceFields fs

end

mutual

/-- The value produced by `readJSON`'s `JSON.parse` reviver: every string
matching the ISO pattern is replaced by the `Date` it denotes (`new Date`
applied to the canonical ISO strings that serialization produces parses
back to the date with exactly that rendering). -/
def reviveValue : Value → Value
  | .str s => if isoLike s then .date s else .str s
  | .arr xs => .arr (reviveList xs)
  | .obj fs => .obj (reviveFields fs)
  | v => v

/-- The reviver mapped over array elements. -/
def reviveList : List Value → List Value
  | [] => []
  | x :: xs => reviveValue x :: reviveList xs

/-- The reviver mapped over object fields. -/
def reviveFields : List (String × Value) → List (String × Value)
  | [] => []
  | (k, v) :: fs => (k, reviveValue v) :: reviveFields fs

end

/-- `readJSON` applied to what `writeJSON` stored, at the value level. -/
def roundTripValue (v : Value) : Value :=
  reviveValue (jsonReplace v)

/-- `store` then `load` of a collection: the stored value is the array of
records. -/
def storeThenLoad (docs : List JsDoc) : Value :=
  roundTripValue (.arr (docs.map .obj))

mutual

/-- The values whose JSON image determines them: no `undefined`, no
non-finite numbers, no string that the reviver would turn into a date, and
every date rendered canonically (so the reviver recognizes it). -/
def jsonStable : Value → Bool
  | .undefined => false
  | .null => true
  | .bool _ => true
  | .num (.fin _) => true
  | .num _ => false
  | .str s => ! isoLike s
  | .date s => isoLike s
  | .arr xs => jsonStableList xs
  | .obj fs => jsonStableFields fs

/-- `jsonStable` over array elements. -/
def jsonStableList : List Value → Bool
  | [] => true
  | x :: xs => jsonStable x && jsonStableList xs

/-- `jsonStable` over object fields. -/
def jsonStableFields : List (String × Value) → Bool
  | [] => true
  | (_, v) :: fs => jsonStable v && jsonStableFields fs

end

namespace UnwindHeap

/-!
`Aggregate._unwind` copies each record with a shallow `{...doc}` spread and
then mutates the copy through `_setFieldValue`.  For dotted paths the
mutation happens inside an object that the copy still shares with the
original record and with every other copy, so the aliasing is observable.
This section therefore models `_unwind` over an explicit heap: values are
primitives or references, objects and arrays live at heap addresses, and
allocation appends to the heap.
-/

/-- A heap value: a primitive or a reference to a heap object. -/
inductive HVal where
  | hundefined : HVal
  | hnull : HVal
  | hbool (b : Bool) : HVal
  | hnum (n : JsNum) : HVal
  | hstr (s : String) : HVal
  | href (a : Nat) : HVal
  deriving DecidableEq, Repr

/-- A heap object: a plain object or an array. -/
inductive HObj where
  | hobj (fs : List (String × HVal)) : HObj
  | harr (es : List HVal) : HObj
  deriving DecidableEq, Repr

/-- The heap: address `a` holds `h.get? a`; allocation appends. -/
abbrev Heap := List HObj

/-- Truthiness of a heap value (references are always truthy). -/
def hTruthy : HVal → Bool
  | .hundefined => false
  | .hnull => false
  | .hbool b => b
  | .hnum .nan => false
  | .hnum (.fin q) => decide (q ≠ 0)
  | .hnum _ => true
  | .hstr s => decide (s ≠ "")
  | .href _ => true

/-- Field read on an object's field list (`undefined` when absent). -/
def lookupH (fs : List (String × HVal)) (k : String) : HVal :=
  match fs.find? (fun f => f.1 == k) with
  | some f => f.2
  | none => .hundefined

/-- Field write on an object's field list. -/
def setH (fs : List (String × HVal)) (k : String) (v : HVal) : List (String × HVal) :=
  match fs with
  | [] => [(k, v)]
  | (k', v') :: rest => if k' = k then (k, v) :: rest else (k', v') :: setH rest k v

/-- Property read `v[key]` through the heap (array/string `length` and
canonical numeric indices are modelled; other primitive property reads
yield `undefined`). -/
def readProp (h : Heap) (v : HVal) (key : String) : HVal :=
  match v with
  | .href a =>
      match h.get? a with
      | some (.hobj fs) => lookupH fs key
      | some (.harr es) =>
          if key = "length" then .hnum (.fin es.length)
          else
            match strToNat? key with
            | some i => if toString i = key then (es.get? i).getD .hundefined else .hundefined
            | none => .hundefined
      | none => .hundefined
  | .hstr s =>
      if key = "length" then .hnum (.fin s.length)
      else
        match strToNat? key with
        | some i =>
            if toString i = key then
              match s.data.get? i with
              | some c => .hstr (String.mk [c])
              | none => .hundefined
            else .hundefined
        | none => .hundefined
  | _ => .hundefined

/-- One step `(obj, key) => obj && obj[key]` of `_getFieldValue`. -/
def getStepH (h : Heap) (v : HVal) (key : String) : HVal :=
  if ! hTruthy v then v else readProp h v key

/-- `Aggregate._getFieldValue(doc, path)` over the heap. -/
def _getFieldValue (h : Heap) (doc : HVal) (path : String) : HVal :=
  (splitOnDot path).foldl (getStepH h) doc

/-- `Aggregate._setFieldValue(doc, path, value)`: traverse all but the last
path component with plain `obj[key]` reads, then assign to the target.
Assignment with a non-reference target is modelled as a silent no-op
(JavaScript in sloppy mode ignores property writes on primitives), and
assignment into an array object is not modelled (no claim reaches it). -/
def _setFieldValue (h : Heap) (doc : HVal) (path : String) (value : HVal) : Heap :=
  let parts := splitOnDot path
  let last := parts.getLastD ""
  let target := parts.dropLast.foldl (fun v k => readProp h v k) doc
  match target with
  | .href a =>
      match h.get? a with
      | some (.hobj fs) => h.set a (.hobj (setH fs last value))
      | _ => h
  | _ => h

/-- `{...doc}`: allocate a shallow field-copy of an object (the unwound
records are always plain objects; anything else copies to an empty
object). -/
def spreadCopy (h : Heap) (doc : HVal) : Heap × Nat :=
  match doc with
  | .href a =>
      match h.get? a with
      | some (.hobj fs) => (h ++ [.hobj fs], h.length)
      | _ => (h ++ [.hobj []], h.length)
  | _ => (h ++ [.hobj []], h.length)

/-- `Array.isArray` on a heap value, returning the elements. -/
def isArrayAt (h : Heap) (v : HVal) : Option (List HVal) :=
  match v with
  | .href a =>
      match h.get? a with
      | some (.harr es) => some es
      | _ => none
  | _ => none

/-- The inner loop of `_unwind`: one mutated shallow copy per array
element. -/
def unwindItems (fieldPath : String) (doc : HVal) :
    Heap → List HVal → Heap × List HVal
  | h, [] => (h, [])
  | h, item :: rest =>
      let alloc := spreadCopy h doc
      let h2 := _setFieldValue alloc.1 (.href alloc.2) fieldPath item
      let next := unwindItems fieldPath doc h2 rest
      (next.1, .href alloc.2 :: next.2)

/-- The outer loop of `Aggregate._unwind(docs, path)`: non-array targets
pass through, array targets emit one copy per element. -/
def unwindGo (fieldPath : String) : Heap → List HVal → Heap × List HVal
  | h, [] => (h, [])
  | h, doc :: docs =>
      match isArrayAt h (_getFieldValue h doc fieldPath) with
      | some es =>
          let block := unwindItems fieldPath doc h es
          let next := unwindGo fieldPath block.1 docs
          (next.1, block.2 ++ next.2)
      | none =>
          let next := unwindGo fieldPath h docs
          (next.1, doc :: next.2)

/-- `Aggregate._unwind(docs, path)`: strip a leading `$`, then run the
loop. -/
def _unwind (h : Heap) (docs : List HVal) (path : String) : Heap × List HVal :=
  let fieldPath := if startsWithDollar path then strDropOne path else path
  unwindGo fieldPath h docs

/-- The own fields of an object reference. -/
def fieldsOfDoc (h : Heap) (doc : HVal) : List (String × HVal) :=
  match doc with
  | .href a =>
      match h.get? a with
      | some (.hobj fs) => fs
      | _ => []
  | _ => []

/-- Modelled from the spec sentence for C5: a record whose target path
holds a `k`-element array is replaced by exactly `k` fresh records, each
with the same fields except that the target path holds one array element
(in array order); any other record passes through unchanged exactly once;
nothing that already existed on the heap is touched (the heap is only
extended by the fresh records). -/
def unwindSpecGo (fieldPath : String) : Heap → List HVal → Heap × List HVal
  | h, [] => (h, [])
  | h, doc :: docs =>
      match isArrayAt h (_getFieldValue h doc fieldPath) with
      | some es =>
          let fresh := (List.range es.length).map (fun i => HVal.href (h.length + i))
          let h1 := h ++ es.map (fun item => HObj.hobj (setH (fieldsOfDoc h doc) fieldPath item))
          let next := unwindSpecGo fieldPath h1 docs
          (next.1, fresh ++ next.2)
      | none =>
          let next := unwindSpecGo fieldPath h docs
          (next.1, doc :: next.2)

/-- Modelled from the spec sentence for C5 (entry point). -/
def unwindSpec (h : Heap) (docs : List HVal) (path : String) : Heap × List HVal :=
  let fieldPath := if startsWithDollar path then strDropOne path else path
  unwindSpecGo fieldPath h docs

/-- Whether a heap value is a reference to a plain object of the heap. -/
def isObjRef (h : Heap) (v : HVal) : Bool :=
  match v with
  | .href a =>
      match h.get? a with
      | some (.hobj _) => true
      | _ => false
  | _ => false

/-- Read a heap value back into a `Value` tree (fuel-bounded; the
counterexample reads its final heap with ample fuel). -/
def readback (h : Heap) : Nat → HVal → Value
  | _, .hundefined => .undefined
  | _, .hnull => .null
  | _, .hbool b => .bool b
  | _, .hnum n => .num n
  | _, .hstr s => .str s
  | 0, .href _ => .undefined
  | fuel + 1, .href a =>
      match h.get? a with
      | some (.hobj fs) => .obj (fs.map (fun f => (f.1, readback h fuel f.2)))
      | some (.harr es) => .arr (es.map (fun x => readback h fuel x))
      | none => .undefined

end UnwindHeap

/-- A `SchemaType` for a required, defaultless field `name`, used by closed
witnesses. -/
def sampleNameType : SchemaType :=
  { path := "name", validators := [SchemaType.requiredValidator "name"], setters := [] }

/-- A one-field schema (required, defaultless `name`), used by closed
witnesses. -/
def sampleRequiredSchema : Schema :=
  { definition := [("name", { defaultVal := none, isDateType := false })],
    paths := [("name", sampleNameType)] }

/-!
## Theorems

Helper lemmas first (shared between claims), then one theorem per claim,
each preceded by a doc comment naming the claim.
-/

theorem lookupField_cons_self (k : String) (v : Value) (fs : List (String × Value)) :
    lookupField ((k, v) :: fs) k = v := by
  simp [lookupField]

theorem lookupField_cons_ne (k k' : String) (v : Value) (fs : List (String × Value))
    (h : k ≠ k') : lookupField ((k, v) :: fs) k' = lookupField fs k' := by
  simp [lookupField, List.find?_cons, h]

theorem lookupField_setField_self (fs : List (String × Value)) (k : String) (v : Value) :
    lookupField (setField fs k v) k = v := by
  induction fs with
  | nil => simp [setField, lookupField]
  | cons f rest ih =>
      obtain ⟨a, b⟩ := f
      rw [setField]
      by_cases hak : a = k
      · simp [hak, lookupField_cons_self]
      · rw [if_neg hak, lookupField_cons_ne a k b _ hak, ih]

theorem lookupField_setField_ne (fs : List (String × Value)) (k k' : String) (v : Value)
    (h : k ≠ k') : lookupField (setField fs k v) k' = lookupField fs k' := by
  induction fs with
  | nil => simp [setField, lookupField, List.find?_cons, fun hv => h (by simpa using hv)]
  | cons f rest ih =>
      obtain ⟨a, b⟩ := f
      rw [setField]
      by_cases hak : a = k
      · subst hak
        rw [if_pos rfl, lookupField_cons_ne a k' v _ h, lookupField_cons_ne a k' b _ h]
      · rw [if_neg hak]
        by_cases hak' : a = k'
        · subst hak'
          rw [lookupField_cons_self, lookupField_cons_self]
        · rw [lookupField_cons_ne a k' b _ hak', lookupField_cons_ne a k' b _ hak', ih]

/-- Keys of `setField` come from the original keys plus the written key. -/
theorem setField_keys (fs : List (String × Value)) (k : String) (v : Value) :
    ∀ e ∈ setField fs k v, e.1 = k ∨ e ∈ fs := by
  induction fs with
  | nil => intro e he; simp [setField] at he; simp [he]
  | cons f rest ih =>
      intro e he
      rw [setField] at he
      by_cases hak : f.1 = k
      · rw [if_pos hak] at he
        rcases List.mem_cons.mp he with h | h
        · exact .inl (by rw [h])
        · exact .inr (List.mem_cons_of_mem _ h)
      · rw [if_neg hak] at he
        rcases List.mem_cons.mp he with h | h
        · exact .inr (by rw [h]; exact List.mem_cons_self _ _)
        · rcases ih e h with h' | h'
          · exact .inl h'
          · exact .inr (List.mem_cons_of_mem _ h')

/-- C9: a `find().where(path).exists(v)` query matches no record: the
`$exists` criterion falls into `_matchQuery`'s unknown-operator branch,
which evaluates to `false`, so `exec()` returns the empty sequence. -/
theorem existsCondition_exec_empty (E : JsExt) (stored : List JsDoc) (path : String)
    (v : Bool) :
    Query.exec E (QueryBuilder.existsCondition {} path v) stored = [] := by
  have hcond : ∀ doc : JsDoc,
      Model._matchQuery E doc [(path, .obj [("$exists", .bool v)])] = false := by
    intro doc
    rfl
  have hfind : Model._find E stored [(path, .obj [("$exists", .bool v)])] = [] := by
    rw [Model._find, List.filter_eq_nil_iff]
    intro d _
    rw [hcond d]
    exact Bool.false_ne_true
  show Query.exec E { conditions := [(path, .obj [("$exists", .bool v)])] } stored = []
  rw [Query.exec]
  rw [show ({ conditions := [(path, .obj [("$exists", .bool v)])] } : Query).conditions
    = [(path, .obj [("$exists", .bool v)])] from rfl, hfind]
  rfl

/-- C4 counterexample: `limit(0)` is falsy, so the limit is ignored —
`find().skip(0).limit(0).exec()` on a one-record collection returns the
record, while the claimed slice `[0, 0+0)` is empty. -/
theorem exec_limit_zero_counterexample :
    Query.exec dummyExt (Query.limit (Query.skip {} 0) 0)
        [[("x", Value.num (.fin 1))]] = [[("x", Value.num (.fin 1))]] ∧
    ((Query.exec dummyExt {} [[("x", Value.num (.fin 1))]]).drop 0).take 0 = [] ∧
    ([[("x", Value.num (.fin 1))]] : List JsDoc) ≠ [] := by
  refine ⟨rfl, rfl, ?_⟩
  decide

/-- C4 (amended): for every collection, every base query, every `s` and
every `l ≥ 1`, `find().skip(s).limit(l).exec()` is exactly the slice
`[s, s+l)` of the plain `exec()` sequence (skip before limit), and an
out-of-range `s` yields `[]` without error; `l = 0` is excluded because a
zero limit is falsy and is ignored (see the counterexample). -/
theorem exec_skip_limit_slice (E : JsExt) (q : Query) (stored : List JsDoc)
    (s l : Nat) (hl : 1 ≤ l) :
    Query.exec E (Query.limit (Query.skip q s) l) stored =
      ((Query.exec E { q with _skip := none, _limit := none } stored).drop s).take l ∧
    (stored.length ≤ s →
      Query.exec E (Query.limit (Query.skip q s) l) stored = []) := by
  have hl0 : l ≠ 0 := Nat.one_le_iff_ne_zero.mp hl
  have hskip : ∀ docs : List JsDoc, Query.applySkip (some s) docs = docs.drop s := by
    intro docs
    rw [Query.applySkip]
    by_cases hs : s = 0
    · subst hs
      simp
    · rw [if_pos hs]
  have hbase :
      Query.exec E (Query.limit (Query.skip q s) l) stored =
        ((Query.exec E { q with _skip := none, _limit := none } stored).drop s).take l := by
    show Query.applyLimit (some l) (Query.applySkip (some s)
        (Query.sortStage E q._sort (Model._find E stored q.conditions))) =
      ((Query.applyLimit none (Query.applySkip none
        (Query.sortStage E q._sort (Model._find E stored q.conditions)))).drop s).take l
    rw [Query.applyLimit, if_pos hl0, hskip]
    rfl
  refine ⟨hbase, fun hrange => ?_⟩
  rw [hbase]
  have hlen : (Query.exec E { q with _skip := none, _limit := none } stored).length ≤ s := by
    apply le_trans _ hrange
    show (Query.applyLimit none (Query.applySkip none
      (Query.sortStage E q._sort (Model._find E stored q.conditions)))).length ≤ stored.length
    rw [Query.applyLimit, Query.applySkip, Query.sortStage]
    split
    · rw [List.length_mergeSort]
      exact List.length_filter_le _ _
    · exact List.length_filter_le _ _
  rw [List.drop_eq_nil_of_le hlen, List.take_nil]

/-- Closed witness for the C4 amended theorem at `s = 1`, `l = 1` on a
two-record collection. -/
theorem exec_skip_limit_slice_witness :
    Query.exec dummyExt (Query.limit (Query.skip {} 1) 1)
        [[("x", Value.num (.fin 1))], [("y", Value.null)]] =
      ((Query.exec dummyExt ({} : Query)
        [[("x", Value.num (.fin 1))], [("y", Value.null)]]).drop 1).take 1 ∧
    (([[("x", Value.num (.fin 1))], [("y", Value.null)]] : List JsDoc).length ≤ 1 →
      Query.exec dummyExt (Query.limit (Query.skip {} 1) 1)
        [[("x", Value.num (.fin 1))], [("y", Value.null)]] = []) :=
  exec_skip_limit_slice dummyExt {} [[("x", Value.num (.fin 1))], [("y", Value.null)]]
    1 1 (Nat.le_refl 1)

theorem jsonReplaceList_cons (x : Value) (xs : List Value) (hx : x ≠ .undefined) :
    jsonReplaceList (x :: xs) = jsonReplace x :: jsonReplaceList xs := by
  cases x
  case undefined => exact absurd rfl hx
  all_goals rfl

theorem jsonReplaceFields_cons (k : String) (v : Value) (fs : List (String × Value))
    (hv : v ≠ .undefined) :
    jsonReplaceFields ((k, v) :: fs) = (k, jsonReplace v) :: jsonReplaceFields fs := by
  cases v
  case undefined => exact absurd rfl hv
  all_goals rfl

mutual

theorem roundTrip_stable : (v : Value) → jsonStable v = true →
    reviveValue (jsonReplace v) = v
  | .undefined, h => by simp [jsonStable] at h
  | .null, _ => rfl
  | .bool _, _ => rfl
  | .num n, h => by
      cases n with
      | fin q => rfl
      | nan => simp [jsonStable] at h
      | posInf => simp [jsonStable] at h
      | negInf => simp [jsonStable] at h
  | .str s, h => by
      rw [jsonStable, Bool.not_eq_true'] at h
      show reviveValue (.str s) = .str s
      rw [reviveValue, h]
      rfl
  | .date s, h => by
      rw [jsonStable] at h
      show reviveValue (.str s) = .date s
      rw [reviveValue, h]
      rfl
  | .arr xs, h => by
      rw [jsonStable] at h
      show reviveValue (.arr (jsonReplaceList xs)) = .arr xs
      rw [reviveValue, roundTripList_stable xs h]
  | .obj fs, h => by
      rw [jsonStable] at h
      show reviveValue (.obj (jsonReplaceFields fs)) = .obj fs
      rw [reviveValue, roundTripFields_stable fs h]

theorem roundTripList_stable : (xs : List Value) → jsonStableList xs = true →
    reviveList (jsonReplaceList xs) = xs
  | [], _ => rfl
  | x :: xs, h => by
      rw [jsonStableList, Bool.and_eq_true] at h
      have hx0 : x ≠ .undefined := by
        intro he
        rw [he] at h
        simp [jsonStable] at h
      rw [jsonReplaceList_cons x xs hx0, reviveList,
        roundTrip_stable x h.1, roundTripList_stable xs h.2]

theorem roundTripFields_stable : (fs : List (String × Value)) → jsonStableFields fs = true →
    reviveFields (jsonReplaceFields fs) = fs
  | [], _ => rfl
  | (k, v) :: fs, h => by
      rw [jsonStableFields, Bool.and_eq_true] at h
      have hv0 : v ≠ .undefined := by
        intro he
        rw [he] at h
        simp [jsonStable] at h
      rw [jsonReplaceFields_cons k v fs hv0, reviveFields,
        roundTrip_stable v h.1, roundTripFields_stable fs h.2]

end

/-- C6 counterexample: the claim fails as stated — a record whose field
holds the plain *string* `"2021-03-04T05:06:07.008Z"` round-trips to a
record whose field holds a `Date`, which is not deep-equal to the
original. -/
theorem storeThenLoad_counterexample :
    storeThenLoad [[("name", .str "2021-03-04T05:06:07.008Z")]] =
      .arr [.obj [("name", .date "2021-03-04T05:06:07.008Z")]] ∧
    Value.arr [.obj [("name", .date "2021-03-04T05:06:07.008Z")]] ≠
      .arr [.obj [("name", .str "2021-03-04T05:06:07.008Z")]] := by
  constructor
  · decide
  · decide

/-- C6 (amended): `store` then `load` returns a sequence deep-equal to the
original, with every `Date`-valued field surviving as an equivalent `Date`,
for every record sequence whose values are JSON-representable (no
`undefined`, no non-finite numbers), contain no *string* matching the
reviver's ISO pattern, and whose dates are canonically rendered — the
string exclusion is forced by the counterexample. -/
theorem storeThenLoad_roundtrip (docs : List JsDoc)
    (h : jsonStable (.arr (docs.map .obj)) = true) :
    storeThenLoad docs = .arr (docs.map .obj) :=
  roundTrip_stable _ h

/-- Closed witness for the C6 amended theorem: a record with a string, a
date and a number field round-trips unchanged. -/
theorem storeThenLoad_roundtrip_witness :
    jsonStable (.arr ([[("who", .str "me"), ("when", .date "2021-03-04T05:06:07.008Z"),
        ("n", .num (.fin 2))]].map Value.obj)) = true ∧
    storeThenLoad [[("who", .str "me"), ("when", .date "2021-03-04T05:06:07.008Z"),
        ("n", .num (.fin 2))]] =
      .arr ([[("who", .str "me"), ("when", .date "2021-03-04T05:06:07.008Z"),
        ("n", .num (.fin 2))]].map Value.obj) :=
  ⟨by decide, storeThenLoad_roundtrip _ (by decide)⟩

theorem lookupField_foldl_setField_ne (entries : JsDoc) (base : JsDoc) (k : String)
    (h : ∀ e ∈ entries, e.1 ≠ k) :
    lookupField (entries.foldl (fun d e => setField d e.1 e.2) base) k =
      lookupField base k := by
  induction entries generalizing base with
  | nil => rfl
  | cons e rest ih =>
      rw [List.foldl_cons, ih _ (fun e' he' => h e' (List.mem_cons_of_mem _ he')),
        lookupField_setField_ne _ _ _ _ (h e (List.mem_cons_self _ _))]

theorem map_set_eq_of {α β : Type} (l : List α) (i : Nat) (a : α) (f : α → β)
    (h : f a = f (l.getD i a)) : (l.set i a).map f = l.map f := by
  induction l generalizing i with
  | nil => rfl
  | cons x xs ih =>
      cases i with
      | zero =>
          rw [List.set_cons_zero, List.map_cons, List.map_cons]
          rw [List.getD_cons_zero] at h
          rw [h]
      | succ j =>
          rw [List.set_cons_succ, List.map_cons, List.map_cons]
          rw [List.getD_cons_succ] at h
          rw [ih j h]

theorem foldl_defaults_keys (defs : List (String × FieldDef)) (data : JsDoc)
    (P : String → Prop) (h1 : ∀ e ∈ data, P e.1) (h2 : ∀ e ∈ defs, P e.1) :
    ∀ e ∈ defs.foldl (fun d e =>
      match e.2.defaultVal with
      | some dflt => if lookupField d e.1 = .undefined then setField d e.1 dflt else d
      | none => d) data, P e.1 := by
  induction defs generalizing data with
  | nil => simpa using h1
  | cons d ds ih =>
      rw [List.foldl_cons]
      apply ih
      · intro e he
        rcases hdv : d.2.defaultVal with _ | dflt
        · simp only [hdv] at he
          exact h1 e he
        · simp only [hdv] at he
          by_cases hc : lookupField data d.1 = .undefined


          · rw [if_pos hc] at he
            rcases setField_keys data d.1 dflt e he with h' | h'
            · rw [h']
              exact h2 d (List.mem_cons_self _ _)
            · exact h1 e h'
          · rw [if_neg hc] at he
            exact h1 e he
      · intro e he
        exact h2 e (List.mem_cons_of_mem _ he)

theorem applyDefaults_keys (schema : Schema) (data : JsDoc) (P : String → Prop)
    (h1 : ∀ e ∈ data, P e.1) (h2 : ∀ e ∈ schema.definition, P e.1) :
    ∀ e ∈ Model.applyDefaults schema data, P e.1 :=
  foldl_defaults_keys schema.definition data P h1 h2

theorem foldl_coerce_keys (E : JsExt) (defs : List (String × FieldDef)) (data : JsDoc)
    (P : String → Prop) (h1 : ∀ e ∈ data, P e.1) (h2 : ∀ e ∈ defs, P e.1) :
    ∀ e ∈ defs.foldl (fun d e =>
      if e.2.isDateType then
        match lookupField d e.1 with
        | .str s => setField d e.1 (E.newDate s)
        | _ => d
      else d) data, P e.1 := by
  induction defs generalizing data with
  | nil => simpa using h1
  | cons d ds ih =>
      rw [List.foldl_cons]
      apply ih
      · intro e he
        by_cases hdt : d.2.isDateType
        · rw [if_pos hdt] at he
          rcases hlv : lookupField data d.1 with _ | _ | _ | _ | s | _ | _ | _ <;>
            rw [hlv] at he <;>
            first
            | exact h1 e he
            | { rcases setField_keys data d.1 (E.newDate s) e he with h' | h'
                · rw [h']
                  exact h2 d (List.mem_cons_self _ _)
                · exact h1 e h' }
        · rw [if_neg hdt] at he
          exact h1 e he
      · intro e he
        exact h2 e (List.mem_cons_of_mem _ he)

theorem coerceDates_keys (E : JsExt) (schema : Schema) (data : JsDoc) (P : String → Prop)
    (h1 : ∀ e ∈ data, P e.1) (h2 : ∀ e ∈ schema.definition, P e.1) :
    ∀ e ∈ Model.coerceDates E schema data, P e.1 :=
  foldl_coerce_keys E schema.definition data P h1 h2

/-- C7 counterexample: the claim fails as stated — `updateOne` shallow
merges the update document *after* the stored record, so an update carrying
an `_id` key overwrites the stored `_id` ("a" becomes "b"). -/
theorem findIdx?_go_lt_length {A : Type} (p : A → Bool) :
    ∀ (l : List A) (s i : Nat), List.findIdx? p l s = some i → i < s + l.length := by
  intro l
  induction l with
  | nil => intro s i h; cases h
  | cons a rest ih =>
      intro s i h
      rw [List.findIdx?_cons] at h
      by_cases hp : p a
      · rw [if_pos hp] at h
        rw [show i = s from by simpa using h.symm, List.length_cons]
        exact Nat.lt_add_of_pos_right (Nat.succ_pos _)
      · rw [if_neg hp] at h
        have := ih (s + 1) i h
        rw [List.length_cons]
        omega

theorem findIdx?_lt_length {A : Type} (p : A → Bool) (l : List A) (i : Nat)
    (h : l.findIdx? p = some i) : i < l.length := by
  simpa using findIdx?_go_lt_length p l 0 i h

theorem updateOne_id_overwrite_counterexample :
    (Model.updateOne dummyExt [[("_id", .str "a"), ("x", .num (.fin 1))]] []
        [("_id", .str "b")] (.date "2024-01-01T00:00:00.000Z")).1 =
      [[("_id", .str "b"), ("x", .num (.fin 1)),
        ("updatedAt", .date "2024-01-01T00:00:00.000Z")]] ∧
    lookupField ((Model.updateOne dummyExt [[("_id", .str "a"), ("x", .num (.fin 1))]] []
        [("_id", .str "b")] (.date "2024-01-01T00:00:00.000Z")).1.headD []) "_id" ≠
      .str "a" := by
  constructor
  · decide
  · decide

/-- C7 (amended): `_id` is immutable and stays unique *provided the update
document and the create input (and the schema defaults) do not themselves
carry an `_id` key* — the proviso the counterexample forces.  Under it:
`updateOne` preserves every stored record's `_id` pointwise; a successful
`create` appends exactly the fresh `_id`; a failed `create` stores nothing;
and `_id`-uniqueness of the collection is preserved by both operations when
the fresh id is new. -/
theorem id_immutable_amended (E : JsExt) (stored : List JsDoc)
    (conditions update : JsDoc) (now : Value) (schema : Schema) (data : JsDoc)
    (freshId : String)
    (hu : ∀ e ∈ update, e.1 ≠ "_id")
    (hd : ∀ e ∈ data, e.1 ≠ "_id")
    (hdef : ∀ e ∈ schema.definition, e.1 ≠ "_id")
    (hnodup : (stored.map (fun d => lookupField d "_id")).Nodup)
    (hfresh : Value.str freshId ∉ stored.map (fun d => lookupField d "_id")) :
    (((Model.updateOne E stored conditions update now).1).map
        (fun d => lookupField d "_id") =
      stored.map (fun d => lookupField d "_id")) ∧
    ((((Model.updateOne E stored conditions update now).1).map
        (fun d => lookupField d "_id")).Nodup) ∧
    (((Model.storedAfterCreate E schema stored freshId now data).map
        (fun d => lookupField d "_id") = stored.map (fun d => lookupField d "_id")) ∨
      ((Model.storedAfterCreate E schema stored freshId now data).map
        (fun d => lookupField d "_id") =
        stored.map (fun d => lookupField d "_id") ++ [.str freshId])) ∧
    (((Model.storedAfterCreate E schema stored freshId now data).map
        (fun d => lookupField d "_id")).Nodup) := by
  have hmergedId : ∀ base : JsDoc,
      lookupField (setField (update.foldl (fun d e => setField d e.1 e.2) base)
        "updatedAt" now) "_id" = lookupField base "_id" := by
    intro base
    rw [lookupField_setField_ne _ _ _ _ (by decide),
      lookupField_foldl_setField_ne update base "_id" hu]
  have hupd :
      ((Model.updateOne E stored conditions update now).1).map
        (fun d => lookupField d "_id") =
      stored.map (fun d => lookupField d "_id") := by
    rw [Model.updateOne]
    cases hidx : stored.findIdx? (fun doc => Model._matchQuery E doc conditions) with
    | none => rfl
    | some i =>
        simp only
        apply map_set_eq_of
        rw [hmergedId]
        have hlt : i < stored.length := findIdx?_lt_length _ stored i hidx
        rw [List.getD_eq_getElem?_getD, List.getD_eq_getElem?_getD,
          List.getElem?_eq_getElem hlt]
        rfl
  have hdkeys : ∀ e ∈ Model.coerceDates E schema (Model.applyDefaults schema data),
      e.1 ≠ "_id" :=
    coerceDates_keys E schema _ (fun s => s ≠ "_id")
      (applyDefaults_keys schema data (fun s => s ≠ "_id") hd hdef) hdef
  have hnewId : lookupField
      (Model.newDocOf (Model.coerceDates E schema (Model.applyDefaults schema data))
        freshId now) "_id" = .str freshId := by
    rw [Model.newDocOf,
      lookupField_setField_ne _ _ _ _ (by decide),
      lookupField_setField_ne _ _ _ _ (by decide),
      lookupField_foldl_setField_ne _ _ "_id" hdkeys,
      lookupField_cons_self]
  refine ⟨hupd, by rw [hupd]; exact hnodup, ?_⟩
  by_cases hv : schema.validate
      (Model.coerceDates E schema (Model.applyDefaults schema data)) = []
  · have hok : Model.storedAfterCreate E schema stored freshId now data =
        stored ++ [Model.newDocOf
          (Model.coerceDates E schema (Model.applyDefaults schema data)) freshId now] := by
      rw [Model.storedAfterCreate]
      simp only [Model._createOne]
      rw [if_neg (by simpa using hv)]
    rw [hok, List.map_append, List.map_cons, List.map_nil, hnewId]
    refine ⟨.inr rfl, ?_⟩
    rw [List.nodup_append]
    exact ⟨hnodup, List.nodup_singleton _, by simpa using hfresh⟩
  · have herr : Model.storedAfterCreate E schema stored freshId now data = stored := by
      rw [Model.storedAfterCreate]
      simp only [Model._createOne]
      rw [if_pos hv]
    rw [herr]
    exact ⟨.inl rfl, hnodup⟩

/-- Closed witness for the C7 amended theorem: an `_id`-free update and an
`_id`-free create input on a one-record collection. -/
theorem id_immutable_amended_witness :
    (((Model.updateOne dummyExt [[("_id", .str "a")]] [] [("x", .num (.fin 2))]
        .null).1).map (fun d => lookupField d "_id") =
      ([[("_id", .str "a")]] : List JsDoc).map (fun d => lookupField d "_id")) ∧
    ((((Model.updateOne dummyExt [[("_id", .str "a")]] [] [("x", .num (.fin 2))]
        .null).1).map (fun d => lookupField d "_id")).Nodup) ∧
    (((Model.storedAfterCreate dummyExt
        { definition := [("x", { defaultVal := none, isDateType := false })], paths := [] }
        [[("_id", .str "a")]] "b" .null [("x", .num (.fin 1))]).map
        (fun d => lookupField d "_id") =
      ([[("_id", .str "a")]] : List JsDoc).map (fun d => lookupField d "_id")) ∨
      ((Model.storedAfterCreate dummyExt
        { definition := [("x", { defaultVal := none, isDateType := false })], paths := [] }
        [[("_id", .str "a")]] "b" .null [("x", .num (.fin 1))]).map
        (fun d => lookupField d "_id") =
        ([[("_id", .str "a")]] : List JsDoc).map (fun d => lookupField d "_id") ++
          [.str "b"])) ∧
    (((Model.storedAfterCreate dummyExt
        { definition := [("x", { defaultVal := none, isDateType := false })], paths := [] }
        [[("_id", .str "a")]] "b" .null [("x", .num (.fin 1))]).map
        (fun d => lookupField d "_id")).Nodup) :=
  id_immutable_amended dummyExt [[("_id", .str "a")]] [] [("x", .num (.fin 2))] .null
    { definition := [("x", { defaultVal := none, isDateType := false })], paths := [] }
    [("x", .num (.fin 1))] "b"
    (by decide) (by decide) (by decide) (by decide) (by decide)

theorem doValidateLoop_some (value : Value) (context : JsDoc) :
    ∀ (l : List Validator) (m : String),
      SchemaType.doValidateLoop value context l (some m) = some m := by
  intro l
  induction l with
  | nil => intro m; rfl
  | cons vd rest ih =>
      intro m
      rw [SchemaType.doValidateLoop]
      simp only [Option.isNone_some, Bool.and_false, if_false]
      exact ih m

theorem doValidateLoop_none (value : Value) (context : JsDoc) :
    ∀ l : List Validator,
      SchemaType.doValidateLoop value context l none =
        (l.find? (fun vd => SchemaType.validatorFails vd value context)).map
          (fun vd => vd.message) := by
  intro l
  induction l with
  | nil => rfl
  | cons vd rest ih =>
      rw [SchemaType.doValidateLoop, List.find?_cons]
      by_cases hf : SchemaType.validatorFails vd value context
      · rw [hf]
        simp only [Option.isNone_none, Bool.and_true, if_true]
        exact doValidateLoop_some value context rest vd.message
      · rw [Bool.not_eq_true] at hf
        rw [hf]
        simp only [Option.isNone_none, Bool.and_true, Bool.false_eq_true, if_false]
        exact ih

/-- C8: for synchronous validators, `doValidate` reports exactly one result:
`null` when no validator fails, otherwise the message of the first
validator in registration order whose result is strictly `false` or which
threw — even if several fail; and `required(true)` prepends the built-in
required validator `v => v != null` (carrying the `isRequired` marker) at
the head of the chain, so it is consulted first. -/
theorem doValidate_first_failure (st : SchemaType) (value : Value) (context : JsDoc) :
    st.doValidate value context =
      (st.validators.find? (fun vd => SchemaType.validatorFails vd value context)).map
        (fun vd => vd.message) ∧
    st.requiredSet.validators.head? = some (SchemaType.requiredValidator st.path) ∧
    (SchemaType.requiredValidator st.path).isRequiredV = true ∧
    (SchemaType.requiredValidator st.path).run value context =
      .ok (.bool (! isNullish value)) := by
  refine ⟨?_, rfl, rfl, rfl⟩
  rw [SchemaType.doValidate]
  by_cases hz : st.validators.length = 0
  · rw [if_pos hz, List.length_eq_zero.mp hz]
    rfl
  · rw [if_neg hz]
    exact doValidateLoop_none value context st.validators

theorem validate_eq_flatMap (schema : Schema) (data : JsDoc) :
    schema.validate data = schema.paths.flatMap (Schema.fieldErrors data) := by
  rw [Schema.validate]
  have hstep : ∀ (errors : List String) (e : String × SchemaType),
      (if e.2.requiredB && isNullish (lookupField data e.1) then
        errors ++ [e.1 ++ " is required"]
      else if ! isNullish (lookupField data e.1) then
        match e.2.cast (lookupField data e.1) with
        | .ok value =>
            match e.2.doValidate value data with
            | some msg => errors ++ [msg]
            | none => errors
        | .error msg => errors ++ [e.1 ++ " validation failed: " ++ msg]
      else errors) = errors ++ Schema.fieldErrors data e := by
    intro errors e
    rw [Schema.fieldErrors]
    by_cases h1 : e.2.requiredB && isNullish (lookupField data e.1)
    · rw [if_pos h1, if_pos h1]
    · rw [if_neg h1, if_neg h1]
      by_cases h2 : ! isNullish (lookupField data e.1)
      · rw [if_pos h2, if_pos h2]
        rcases hcast : e.2.cast (lookupField data e.1) with msg | value
        · simp
        · rcases hdv : e.2.doValidate value data with _ | msg
          · simp [hdv]
          · simp [hdv]
      · rw [if_neg h2, if_neg h2]
        simp
  have hfold : ∀ (l : List (String × SchemaType)) (init : List String),
      l.foldl (fun errors e =>
        if e.2.requiredB && isNullish (lookupField data e.1) then
          errors ++ [e.1 ++ " is required"]
        else if ! isNullish (lookupField data e.1) then
          match e.2.cast (lookupField data e.1) with
          | .ok value =>
              match e.2.doValidate value data with
              | some msg => errors ++ [msg]
              | none => errors
          | .error msg => errors ++ [e.1 ++ " validation failed: " ++ msg]
        else errors) init = init ++ l.flatMap (Schema.fieldErrors data) := by
    intro l
    induction l with
    | nil => intro init; simp
    | cons e rest ih =>
        intro init
        rw [List.foldl_cons, hstep init e, ih, List.flatMap_cons, List.append_assoc]
  simpa using hfold schema.paths []

theorem fieldErrors_length_le_one (data : JsDoc) (e : String × SchemaType) :
    (Schema.fieldErrors data e).length ≤ 1 := by
  rw [Schema.fieldErrors]
  by_cases h1 : e.2.requiredB && isNullish (lookupField data e.1)
  · rw [if_pos h1]
    exact Nat.le_refl 1
  · rw [if_neg h1]
    by_cases h2 : ! isNullish (lookupField data e.1)
    · rw [if_pos h2]
      rcases hcast : e.2.cast (lookupField data e.1) with msg | value
      · simp
      · rcases hdv : e.2.doValidate value data with _ | msg
        · simp [hdv]
        · simp [hdv]
    · rw [if_neg h2]
      exact Nat.zero_le 1

theorem fieldErrors_required (data : JsDoc) (e : String × SchemaType)
    (hreq : e.2.requiredB = true)
    (hnull : isNullish (lookupField data e.1) = true) :
    Schema.fieldErrors data e = [e.1 ++ " is required"] := by
  rw [Schema.fieldErrors, if_pos (by rw [hreq, hnull]; rfl)]

theorem required_mem_validate (schema : Schema) (data : JsDoc)
    (e : String × SchemaType) (he : e ∈ schema.paths)
    (hreq : e.2.requiredB = true)
    (hnull : isNullish (lookupField data e.1) = true) :
    (e.1 ++ " is required") ∈ schema.validate data := by
  rw [validate_eq_flatMap, List.mem_flatMap]
  exact ⟨e, he, by rw [fieldErrors_required data e hreq hnull]; exact List.mem_singleton.mpr rfl⟩

theorem nullish_preserved_defaults (defs : List (String × FieldDef)) (data : JsDoc)
    (path : String) (hnodef : ∀ e ∈ defs, e.1 = path → e.2.defaultVal = none)
    (hnull : isNullish (lookupField data path) = true) :
    isNullish (lookupField (defs.foldl (fun d e =>
      match e.2.defaultVal with
      | some dflt => if lookupField d e.1 = .undefined then setField d e.1 dflt else d
      | none => d) data) path) = true := by
  induction defs generalizing data with
  | nil => exact hnull
  | cons d ds ih =>
      rw [List.foldl_cons]
      apply ih _ (fun e he => hnodef e (List.mem_cons_of_mem _ he))
      rcases hdv : d.2.defaultVal with _ | dflt
      · exact hnull
      · have hdp : d.1 ≠ path := by
          intro h
          rw [hnodef d (List.mem_cons_self _ _) h] at hdv
          cases hdv
        change isNullish (lookupField
          (if lookupField data d.1 = Value.undefined then setField data d.1 dflt else data)
          path) = true
        by_cases hc : lookupField data d.1 = .undefined
        · rw [if_pos hc, lookupField_setField_ne _ _ _ _ hdp]
          exact hnull
        · rw [if_neg hc]
          exact hnull

theorem nullish_preserved_coerce (E : JsExt) (defs : List (String × FieldDef))
    (data : JsDoc) (path : String)
    (hnull : isNullish (lookupField data path) = true) :
    isNullish (lookupField (defs.foldl (fun d e =>
      if e.2.isDateType then
        match lookupField d e.1 with
        | .str s => setField d e.1 (E.newDate s)
        | _ => d
      else d) data) path) = true := by
  induction defs generalizing data with
  | nil => exact hnull
  | cons d ds ih =>
      rw [List.foldl_cons]
      apply ih
      by_cases hdt : d.2.isDateType
      · rw [if_pos hdt]
        by_cases hdp : d.1 = path
        · subst hdp
          rcases hlv : lookupField data d.1 with _ | _ | _ | _ | s | _ | _ | _ <;>
            first
            | exact hnull
            | (rw [hlv] at hnull; cases hnull)
        · rcases hlv : lookupField data d.1 with _ | _ | _ | _ | s | _ | _ | _ <;>
            first
            | exact hnull
            | (rw [lookupField_setField_ne _ _ _ _ hdp]; exact hnull)
      · rw [if_neg hdt]
        exact hnull

/-- C2: `Schema.validate` processes fields independently with no early
exit (it is the concatenation of every field's own errors, at most one per
field), emits `"<path> is required"` for a required absent field, and
consequently `Model.create` on data leaving a required, defaultless field
absent throws the joined per-field error strings and persists nothing. -/
theorem validate_independent_and_blocks_create (E : JsExt) (schema : Schema)
    (stored : List JsDoc) (freshId : String) (now : Value) (data : JsDoc)
    (path : String) (st : SchemaType)
    (hmem : (path, st) ∈ schema.paths)
    (hreq : st.requiredB = true)
    (hnull : isNullish (lookupField data path) = true)
    (hnodef : ∀ e ∈ schema.definition, e.1 = path → e.2.defaultVal = none) :
    (schema.validate data = schema.paths.flatMap (Schema.fieldErrors data)) ∧
    (schema.paths.all
      (fun e => decide ((Schema.fieldErrors data e).length ≤ 1)) = true) ∧
    ((path ++ " is required") ∈ schema.validate
      (Model.coerceDates E schema (Model.applyDefaults schema data))) ∧
    (Model._createOne E schema stored freshId now data =
      .error (String.intercalate ", " (schema.validate
        (Model.coerceDates E schema (Model.applyDefaults schema data))))) ∧
    (Model.storedAfterCreate E schema stored freshId now data = stored) := by
  have hnull' : isNullish (lookupField
      (Model.coerceDates E schema (Model.applyDefaults schema data)) path) = true :=
    nullish_preserved_coerce E schema.definition _ path
      (nullish_preserved_defaults schema.definition data path hnodef hnull)
  have hmemerr : (path ++ " is required") ∈ schema.validate
      (Model.coerceDates E schema (Model.applyDefaults schema data)) :=
    required_mem_validate schema _ (path, st) hmem hreq hnull'
  have hne : schema.validate
      (Model.coerceDates E schema (Model.applyDefaults schema data)) ≠ [] := by
    intro h
    rw [h] at hmemerr
    cases hmemerr
  have hcreate : Model._createOne E schema stored freshId now data =
      .error (String.intercalate ", " (schema.validate
        (Model.coerceDates E schema (Model.applyDefaults schema data)))) := by
    simp only [Model._createOne]
    rw [if_pos hne]
  refine ⟨validate_eq_flatMap schema data, ?_, hmemerr, hcreate, ?_⟩
  · rw [List.all_eq_true]
    intro e _
    exact decide_eq_true (fieldErrors_length_le_one data e)
  · rw [Model.storedAfterCreate, hcreate]

/-- Closed witness for the C2 theorem: a schema with one required,
defaultless field `name` and an empty create input. -/
theorem validate_independent_and_blocks_create_witness :
    (Schema.validate sampleRequiredSchema [] =
      sampleRequiredSchema.paths.flatMap (Schema.fieldErrors [])) ∧
    (sampleRequiredSchema.paths.all
      (fun e => decide ((Schema.fieldErrors [] e).length ≤ 1)) = true) ∧
    (("name" ++ " is required") ∈ Schema.validate sampleRequiredSchema
      (Model.coerceDates dummyExt sampleRequiredSchema
        (Model.applyDefaults sampleRequiredSchema []))) ∧
    (Model._createOne dummyExt sampleRequiredSchema [] "f" .null [] =
      .error (String.intercalate ", " (Schema.validate sampleRequiredSchema
        (Model.coerceDates dummyExt sampleRequiredSchema
          (Model.applyDefaults sampleRequiredSchema []))))) ∧
    (Model.storedAfterCreate dummyExt sampleRequiredSchema [] "f" .null [] = []) :=
  validate_independent_and_blocks_create dummyExt sampleRequiredSchema [] "f" .null []
    "name" sampleNameType (List.mem_singleton.mpr rfl) (by rfl) (by rfl) (by decide)

theorem matchCondition_eq_conditionSatisfied (E : JsExt) (doc : JsDoc) (key : String)
    (v : Value) (hv : SpecC1.criterionShapeOk v = true) :
    Model.matchCondition E doc key v = SpecC1.conditionSatisfied E doc key v := by
  have hfalse : ∀ w : Value, (jsTruthy w && typeofIsObject w) = false →
      Model.matchCondition E doc key w = jsStrictEq (lookupField doc key) w := by
    intro w hw
    rw [Model.matchCondition, if_neg (by rw [hw]; exact Bool.false_ne_true)]
  cases v with
  | obj fs => rfl
  | null => rfl
  | undefined => rfl
  | bool b =>
      rw [hfalse (.bool b)
        (by rw [show typeofIsObject (Value.bool b) = false from rfl, Bool.and_false])]
      rfl
  | num n =>
      rw [hfalse (.num n)
        (by rw [show typeofIsObject (Value.num n) = false from rfl, Bool.and_false])]
      rfl
  | str s =>
      rw [hfalse (.str s)
        (by rw [show typeofIsObject (Value.str s) = false from rfl, Bool.and_false])]
      rfl
  | arr xs => cases hv
  | date s => cases hv

/-- C1: `Model._matchQuery` matches a record exactly when every top-level
condition key is satisfied, in the sense of the spec sentence: a
plain-object criterion is a conjunction of operator entries drawn from
`$gt,$gte,$lt,$lte,$ne,$in,$nin,$regex` ($regex reading the sibling
`$options` key, `$in`/`$nin` treating a scalar stored value as a
one-element set, any unknown entry — including `$options` itself —
evaluating to false), and a non-object criterion demands exact equality.
The hypothesis restricts criteria to the shapes the claim speaks about
(plain objects or non-objects). -/
theorem matchQuery_eq_matchQuerySpec (E : JsExt) (doc : JsDoc) (query : JsDoc)
    (hq : ∀ e ∈ query, SpecC1.criterionShapeOk e.2 = true) :
    Model._matchQuery E doc query = SpecC1.matchQuerySpec E doc query := by
  rw [Model._matchQuery, SpecC1.matchQuerySpec]
  induction query with
  | nil => rfl
  | cons e rest ih =>
      rw [List.all_cons, List.all_cons,
        matchCondition_eq_conditionSatisfied E doc e.1 e.2 (hq e (List.mem_cons_self _ _)),
        ih (fun e' he' => hq e' (List.mem_cons_of_mem _ he'))]

/-- Closed witness for the C1 theorem: a two-key query (a `$gte` operator
criterion and an exact-equality criterion). -/
theorem matchQuery_eq_matchQuerySpec_witness :
    Model._matchQuery dummyExt [("age", .num (.fin 1))]
        [("age", .obj [("$gte", .num (.fin 0))]), ("name", .str "a")] =
      SpecC1.matchQuerySpec dummyExt [("age", .num (.fin 1))]
        [("age", .obj [("$gte", .num (.fin 0))]), ("name", .str "a")] :=
  matchQuery_eq_matchQuerySpec dummyExt [("age", .num (.fin 1))]
    [("age", .obj [("$gte", .num (.fin 0))]), ("name", .str "a")] (by decide)

theorem svz_true_iff (k k' : Value) (h : Aggregate.isPrimitiveValue k' = true) :
    sameValueZero k k' = true ↔ k = k' := by
  cases k' with
  | date s => cases h
  | arr xs => cases h
  | obj fs => cases h
  | undefined => cases k <;> simp [sameValueZero, jsStrictEq]
  | null => cases k <;> simp [sameValueZero, jsStrictEq]
  | bool b => cases k <;> simp [sameValueZero, jsStrictEq]
  | num n => cases k <;> simp [sameValueZero, jsStrictEq]
  | str s => cases k <;> simp [sameValueZero, jsStrictEq]

theorem any_map_pair {α β : Type} (f : α → β) (l : List α) (p : β → Bool) :
    (l.map f).any p = l.any (fun a => p (f a)) := by
  induction l with
  | nil => rfl
  | cons x xs ih => simp [ih]

theorem groupsHas_map (keys : List Value) (G : Value → List (String × Value))
    (key : Value) :
    Aggregate.groupsHas key (keys.map (fun k => (k, G k))) =
      keys.any (fun k => sameValueZero k key) := by
  rw [Aggregate.groupsHas, any_map_pair]

theorem groupsUpdate_keys (key : Value)
    (f : List (String × Value) → List (String × Value)) :
    ∀ S : List (Value × List (String × Value)),
      (Aggregate.groupsUpdate key f S).map Prod.fst = S.map Prod.fst := by
  intro S
  induction S with
  | nil => rfl
  | cons p rest ih =>
      rw [Aggregate.groupsUpdate]
      by_cases h : sameValueZero p.1 key
      · rw [if_pos h]
        rfl
      · rw [if_neg h, List.map_cons, List.map_cons, ih]

theorem fsk_append_one (l : List Value) (k : Value) :
    Aggregate.firstSeenKeys (l ++ [k]) =
      if (Aggregate.firstSeenKeys l).any (fun k' => sameValueZero k' k) then
        Aggregate.firstSeenKeys l
      else Aggregate.firstSeenKeys l ++ [k] := by
  rw [Aggregate.firstSeenKeys, Aggregate.firstSeenKeys, List.foldl_append]
  rfl

theorem mem_fsk (l : List Value) (k' : Value)
    (hp : Aggregate.isPrimitiveValue k' = true) (hm : k' ∈ l) :
    k' ∈ Aggregate.firstSeenKeys l := by
  induction l using List.reverseRecOn with
  | nil => cases hm
  | append_singleton l x ih =>
      rw [fsk_append_one]
      rcases List.mem_append.mp hm with hl | hx
      · by_cases hany : (Aggregate.firstSeenKeys l).any (fun k'' => sameValueZero k'' x)
        · rw [if_pos hany]
          exact ih hl
        · rw [if_neg hany]
          exact List.mem_append_left _ (ih hl)
      · have hxk : k' = x := by simpa using hx
        subst hxk
        by_cases hany : (Aggregate.firstSeenKeys l).any (fun k'' => sameValueZero k'' k')
        · rw [if_pos hany]
          rcases List.any_eq_true.mp hany with ⟨k'', hk''mem, hk''⟩
          rw [(svz_true_iff k'' k' hp).mp hk''] at hk''mem
          exact hk''mem
        · rw [if_neg hany]
          exact List.mem_append_right _ (List.mem_singleton.mpr rfl)

theorem fsk_nodup (l : List Value)
    (hp : ∀ k ∈ l, Aggregate.isPrimitiveValue k = true) :
    (Aggregate.firstSeenKeys l).Nodup := by
  induction l using List.reverseRecOn with
  | nil => exact List.nodup_nil
  | append_singleton l x ih =>
      have hp' : ∀ k ∈ l, Aggregate.isPrimitiveValue k = true :=
        fun k hk => hp k (List.mem_append_left _ hk)
      have hpx : Aggregate.isPrimitiveValue x = true :=
        hp x (List.mem_append_right _ (List.mem_singleton.mpr rfl))
      rw [fsk_append_one]
      by_cases hany : (Aggregate.firstSeenKeys l).any (fun k'' => sameValueZero k'' x)
      · rw [if_pos hany]
        exact ih hp'
      · rw [if_neg hany]
        rw [List.nodup_append]
        refine ⟨ih hp', List.nodup_singleton _, ?_⟩
        intro a ha hax
        have hax' : a = x := by simpa using hax
        subst hax'
        have hself : sameValueZero a a = true := (svz_true_iff a a hpx).mpr rfl
        have hany' : (Aggregate.firstSeenKeys l).any (fun k'' => sameValueZero k'' a) = false := by
          simpa using hany
        have hfalse := List.any_eq_false.mp hany' a ha
        exact hfalse hself

theorem groupsUpdate_map (keys : List Value) (G : Value → List (String × Value))
    (key : Value) (f : List (String × Value) → List (String × Value))
    (hkey : Aggregate.isPrimitiveValue key = true) (hnd : keys.Nodup) :
    Aggregate.groupsUpdate key f (keys.map (fun k => (k, G k))) =
      keys.map (fun k => (k, if sameValueZero k key then f (G k) else G k)) := by
  induction keys with
  | nil => rfl
  | cons k0 rest ih =>
      rw [List.map_cons, Aggregate.groupsUpdate, List.map_cons]
      by_cases h0 : sameValueZero k0 key
      · rw [if_pos h0]
        simp only [h0, if_true]
        have hk0 : k0 = key := (svz_true_iff k0 key hkey).mp h0
        have hrest : rest.map (fun k => (k, if sameValueZero k key then f (G k) else G k)) =
            rest.map (fun k => (k, G k)) := by
          apply List.map_congr_left
          intro a ha
          have hak : sameValueZero a key = false := by
            by_contra hcon
            rw [Bool.not_eq_false] at hcon
            rw [(svz_true_iff a key hkey).mp hcon] at ha
            rw [hk0] at hnd
            exact (List.nodup_cons.mp hnd).1 ha
          rw [hak]
          rfl
        rw [hrest]
      · rw [if_neg h0]
        simp only [h0, if_false]
        rw [ih (List.nodup_cons.mp hnd).2]
        rfl

theorem group_state_spec (E : JsExt) (grouping : JsDoc) (docs : List JsDoc)
    (hk : ∀ d ∈ docs,
      Aggregate.isPrimitiveValue (Aggregate.groupKeyOf grouping d) = true) :
    docs.foldl (Aggregate.groupsStep E grouping) [] =
      (Aggregate.firstSeenKeys (docs.map (Aggregate.groupKeyOf grouping))).map
        (fun k => (k,
          (docs.filter
            (fun d => sameValueZero k (Aggregate.groupKeyOf grouping d))).foldl
            (fun g d => Aggregate.updateGroupFields E grouping g d)
            (Aggregate.initGroup grouping))) := by
  induction docs using List.reverseRecOn with
  | nil => rfl
  | append_singleton docs d ih =>
      have hk' : ∀ d' ∈ docs,
          Aggregate.isPrimitiveValue (Aggregate.groupKeyOf grouping d') = true :=
        fun d' hd' => hk d' (List.mem_append_left _ hd')
      have hkd : Aggregate.isPrimitiveValue (Aggregate.groupKeyOf grouping d) = true :=
        hk d (List.mem_append_right _ (List.mem_singleton.mpr rfl))
      have hkprim : ∀ k ∈ docs.map (Aggregate.groupKeyOf grouping),
          Aggregate.isPrimitiveValue k = true := by
        intro k hkm
        rcases List.mem_map.mp hkm with ⟨d', hd', hval⟩
        rw [← hval]
        exact hk' d' hd'
      rw [List.foldl_append, List.foldl_cons, List.foldl_nil, ih hk',
        List.map_append, List.map_cons, List.map_nil, fsk_append_one]
      rw [Aggregate.groupsStep,
        groupsHas_map (Aggregate.firstSeenKeys (docs.map (Aggregate.groupKeyOf grouping)))
          _ (Aggregate.groupKeyOf grouping d)]
      by_cases hany : (Aggregate.firstSeenKeys
          (docs.map (Aggregate.groupKeyOf grouping))).any
          (fun k' => sameValueZero k' (Aggregate.groupKeyOf grouping d))
      · rw [if_pos hany, if_pos hany,
          groupsUpdate_map _ _ _ _ hkd (fsk_nodup _ hkprim)]
        apply List.map_congr_left
        intro k hkmem
        rw [List.filter_append]
        by_cases hmatch : sameValueZero k (Aggregate.groupKeyOf grouping d)
        · rw [if_pos hmatch]
          rw [show List.filter
            (fun d' => sameValueZero k (Aggregate.groupKeyOf grouping d')) [d] = [d] by
              rw [List.filter_singleton, hmatch]; rfl]
          rw [List.foldl_append, List.foldl_cons, List.foldl_nil]
        · rw [if_neg hmatch]
          have hmatch' : sameValueZero k (Aggregate.groupKeyOf grouping d) = false := by
            simpa using hmatch
          rw [show List.filter
            (fun d' => sameValueZero k (Aggregate.groupKeyOf grouping d')) [d] = [] by
              rw [List.filter_singleton, hmatch']; rfl]
          rw [List.append_nil]
      · rw [if_neg hany, if_neg hany, List.map_append, List.map_cons, List.map_nil]
        congr 1
        · apply List.map_congr_left
          intro k hkmem
          rw [List.filter_append]
          have hany' : (Aggregate.firstSeenKeys
              (docs.map (Aggregate.groupKeyOf grouping))).any
              (fun k' => sameValueZero k' (Aggregate.groupKeyOf grouping d)) = false := by
            simpa using hany
          have hmatch : sameValueZero k (Aggregate.groupKeyOf grouping d) = false := by
            simpa using List.any_eq_false.mp hany' k hkmem
          rw [show List.filter
            (fun d' => sameValueZero k (Aggregate.groupKeyOf grouping d')) [d] = [] by
              rw [List.filter_singleton, hmatch]; rfl]
          rw [List.append_nil]
        · rw [List.filter_append]
          have hempty : docs.filter (fun d' => sameValueZero
              (Aggregate.groupKeyOf grouping d) (Aggregate.groupKeyOf grouping d')) = [] := by
            rw [List.filter_eq_nil_iff]
            intro d' hd'
            intro hcon
            have heq := (svz_true_iff _ _ (hk' d' hd')).mp hcon
            have hmem' : Aggregate.groupKeyOf grouping d' ∈
                Aggregate.firstSeenKeys (docs.map (Aggregate.groupKeyOf grouping)) :=
              mem_fsk _ _ (hk' d' hd') (List.mem_map.mpr ⟨d', hd', rfl⟩)
            rw [← heq] at hmem'
            have hany' : (Aggregate.firstSeenKeys
                (docs.map (Aggregate.groupKeyOf grouping))).any
                (fun k' => sameValueZero k' (Aggregate.groupKeyOf grouping d)) = false := by
              simpa using hany
            have hfalse := List.any_eq_false.mp hany' _ hmem'
            have hself : sameValueZero (Aggregate.groupKeyOf grouping d)
                (Aggregate.groupKeyOf grouping d) = true :=
              (svz_true_iff _ _ hkd).mpr rfl
            exact hfalse hself
          rw [hempty, List.nil_append,
            show List.filter (fun d' => sameValueZero (Aggregate.groupKeyOf grouping d)
              (Aggregate.groupKeyOf grouping d')) [d] = [d] by
                rw [List.filter_singleton, (svz_true_iff _ _ hkd).mpr rfl]; rfl]
          rfl

/-- C3 counterexample: the claim fails as stated for `$push` — the code has
no `$push` case, so the accumulator is seeded `null` (the `default` branch
of `_initializeAccumulator`) and never updated; grouping one record
`{x: 1}` with `{_id: null, xs: {$push: "$x"}}` yields `xs: null`, not the
claimed one-element sequence. -/
theorem group_push_counterexample :
    Aggregate._group dummyExt [[("x", .num (.fin 1))]]
        [("_id", Value.null), ("xs", .obj [("$push", .str "$x")])] =
      [[("_id", Value.null), ("xs", Value.null)]] ∧
    lookupField ((Aggregate._group dummyExt [[("x", .num (.fin 1))]]
        [("_id", Value.null), ("xs", .obj [("$push", .str "$x")])]).headD []) "xs" ≠
      .arr [.num (.fin 1)] := by
  constructor
  · decide
  · decide

/-- C3 (amended): each group's accumulators are seeded per accumulator kind
— `$sum` to 0, `$avg` to a running `{sum, count}` pair exposing its current
mean, `$min` to `+Infinity`, `$max` to `-Infinity`, while `$push` (having
no case) is seeded `null` and never updated — each updated once per
incoming record of its group, and the output has exactly one record per
distinct group key in first-seen-key order with the key reinstated at
`_id`.  The hypothesis restricts grouped keys to primitive values, on
which the `Map`'s `SameValueZero` key equality is reflexive and "distinct
key" is meaningful. -/
theorem group_eq_groupSpec (E : JsExt) (docs : List JsDoc) (grouping : JsDoc)
    (expr : Value) (rest : List (String × Value)) (g : List (String × Value))
    (field : String) (d : JsDoc)
    (hk : ∀ d' ∈ docs,
      Aggregate.isPrimitiveValue (Aggregate.groupKeyOf grouping d') = true) :
    Aggregate._initializeAccumulator (.obj (("$sum", expr) :: rest)) = .num (.fin 0) ∧
    Aggregate._initializeAccumulator (.obj (("$avg", expr) :: rest)) =
      .obj [("sum", .num (.fin 0)), ("count", .num (.fin 0))] ∧
    Aggregate._initializeAccumulator (.obj (("$min", expr) :: rest)) = .num .posInf ∧
    Aggregate._initializeAccumulator (.obj (("$max", expr) :: rest)) = .num .negInf ∧
    Aggregate._initializeAccumulator (.obj (("$push", expr) :: rest)) = Value.null ∧
    Aggregate._updateAccumulator E g field (.obj (("$push", expr) :: rest)) d = g ∧
    Aggregate._group E docs grouping = Aggregate.groupSpec E docs grouping := by
  refine ⟨rfl, rfl, rfl, rfl, rfl, rfl, ?_⟩
  rw [Aggregate._group, group_state_spec E grouping docs hk, Aggregate.groupSpec,
    List.map_map]
  rfl

/-- Closed witness for the C3 amended theorem: grouping two records by a
string field with `$sum`, `$min` and `$push` accumulators. -/
theorem group_eq_groupSpec_witness :
    Aggregate._initializeAccumulator (.obj (("$sum", .num (.fin 1)) :: [])) =
      .num (.fin 0) ∧
    Aggregate._initializeAccumulator (.obj (("$avg", .num (.fin 1)) :: [])) =
      .obj [("sum", .num (.fin 0)), ("count", .num (.fin 0))] ∧
    Aggregate._initializeAccumulator (.obj (("$min", .num (.fin 1)) :: [])) =
      .num .posInf ∧
    Aggregate._initializeAccumulator (.obj (("$max", .num (.fin 1)) :: [])) =
      .num .negInf ∧
    Aggregate._initializeAccumulator (.obj (("$push", .num (.fin 1)) :: [])) =
      Value.null ∧
    Aggregate._updateAccumulator dummyExt [("xs", Value.null)] "xs"
      (.obj (("$push", .num (.fin 1)) :: [])) [("x", .num (.fin 2))] =
      [("xs", Value.null)] ∧
    Aggregate._group dummyExt
        [[("tag", .str "a"), ("n", .num (.fin 2))], [("tag", .str "b")],
          [("tag", .str "a"), ("n", .num (.fin 3))]]
        [("_id", .str "$tag"), ("total", .obj [("$sum", .num (.fin 1))])] =
      Aggregate.groupSpec dummyExt
        [[("tag", .str "a"), ("n", .num (.fin 2))], [("tag", .str "b")],
          [("tag", .str "a"), ("n", .num (.fin 3))]]
        [("_id", .str "$tag"), ("total", .obj [("$sum", .num (.fin 1))])] :=
  group_eq_groupSpec dummyExt
    [[("tag", .str "a"), ("n", .num (.fin 2))], [("tag", .str "b")],
      [("tag", .str "a"), ("n", .num (.fin 3))]]
    [("_id", .str "$tag"), ("total", .obj [("$sum", .num (.fin 1))])]
    (.num (.fin 1)) [] [("xs", Value.null)] "xs" [("x", .num (.fin 2))]
    (by decide)

theorem group_keys_eq_fsk (E : JsExt) (grouping : JsDoc) (docs : List JsDoc) :
    (docs.foldl (Aggregate.groupsStep E grouping) []).map Prod.fst =
      Aggregate.firstSeenKeys (docs.map (Aggregate.groupKeyOf grouping)) := by
  induction docs using List.reverseRecOn with
  | nil => rfl
  | append_singleton docs d ih =>
      rw [List.foldl_append, List.foldl_cons, List.foldl_nil, List.map_append,
        List.map_cons, List.map_nil, fsk_append_one, ← ih]
      rw [Aggregate.groupsStep]
      have hhas : Aggregate.groupsHas (Aggregate.groupKeyOf grouping d)
          (docs.foldl (Aggregate.groupsStep E grouping) []) =
          ((docs.foldl (Aggregate.groupsStep E grouping) []).map Prod.fst).any
            (fun k' => sameValueZero k' (Aggregate.groupKeyOf grouping d)) := by
        rw [Aggregate.groupsHas, any_map_pair]
      by_cases hany : ((docs.foldl (Aggregate.groupsStep E grouping) []).map Prod.fst).any
          (fun k' => sameValueZero k' (Aggregate.groupKeyOf grouping d))
      · rw [if_pos hany]
        rw [show (if Aggregate.groupsHas (Aggregate.groupKeyOf grouping d)
            (docs.foldl (Aggregate.groupsStep E grouping) []) = true then
            Aggregate.groupsUpdate (Aggregate.groupKeyOf grouping d)
              (fun g => Aggregate.updateGroupFields E grouping g d)
              (docs.foldl (Aggregate.groupsStep E grouping) [])
          else (docs.foldl (Aggregate.groupsStep E grouping) []) ++
            [(Aggregate.groupKeyOf grouping d,
              Aggregate.updateGroupFields E grouping (Aggregate.initGroup grouping) d)]) =
          Aggregate.groupsUpdate (Aggregate.groupKeyOf grouping d)
            (fun g => Aggregate.updateGroupFields E grouping g d)
            (docs.foldl (Aggregate.groupsStep E grouping) []) from by
            rw [if_pos (by rw [hhas]; exact hany)]]
        rw [groupsUpdate_keys]
      · rw [if_neg hany]
        rw [show (if Aggregate.groupsHas (Aggregate.groupKeyOf grouping d)
            (docs.foldl (Aggregate.groupsStep E grouping) []) = true then
            Aggregate.groupsUpdate (Aggregate.groupKeyOf grouping d)
              (fun g => Aggregate.updateGroupFields E grouping g d)
              (docs.foldl (Aggregate.groupsStep E grouping) [])
          else (docs.foldl (Aggregate.groupsStep E grouping) []) ++
            [(Aggregate.groupKeyOf grouping d,
              Aggregate.updateGroupFields E grouping (Aggregate.initGroup grouping) d)]) =
          (docs.foldl (Aggregate.groupsStep E grouping) []) ++
            [(Aggregate.groupKeyOf grouping d,
              Aggregate.updateGroupFields E grouping (Aggregate.initGroup grouping) d)] from by
            rw [if_neg (by rw [hhas]; simpa using hany)]]
        rw [List.map_append, List.map_cons, List.map_nil]

theorem group_ids_eq (E : JsExt) (grouping : JsDoc) (docs : List JsDoc) :
    (Aggregate._group E docs grouping).map (fun out => lookupField out "_id") =
      (Aggregate.firstSeenKeys (docs.map (Aggregate.groupKeyOf grouping))).map
        (fun k => if jsStrictEq k (.str "null") then Value.null else k) := by
  rw [Aggregate._group, List.map_map, ← group_keys_eq_fsk E grouping docs,
    List.map_map]
  apply List.map_congr_left
  intro p _
  show lookupField (("_id", if jsStrictEq p.1 (.str "null") then Value.null else p.1)
    :: p.2) "_id" = _
  rw [lookupField_cons_self]
  rfl

theorem two_le_count_map (l : List Value) (f : Value → Value) (a b y : Value)
    (ha : a ∈ l) (hb : b ∈ l) (hab : a ≠ b) (hfa : f a = y) (hfb : f b = y) :
    2 ≤ (l.map f).count y := by
  induction l with
  | nil => cases ha
  | cons x rest ih =>
      rw [List.map_cons, List.count_cons]
      rcases List.mem_cons.mp ha with hax | har
      · rcases List.mem_cons.mp hb with hbx | hbr
        · exact absurd (hax.trans hbx.symm) hab
        · have h1 : 0 < (rest.map f).count y := by
            rw [List.count_pos_iff]
            exact List.mem_map.mpr ⟨b, hbr, hfb⟩
          have h2 : (f x == y) = true := by
            rw [← hax, hfa]
            exact beq_self_eq_true y
          rw [if_pos h2]
          omega
      · rcases List.mem_cons.mp hb with hbx | hbr
        · have h1 : 0 < (rest.map f).count y := by
            rw [List.count_pos_iff]
            exact List.mem_map.mpr ⟨a, har, hfa⟩
          have h2 : (f x == y) = true := by
            rw [← hbx, hfb]
            exact beq_self_eq_true y
          rw [if_pos h2]
          omega
        · have := ih har hbr
          omega

/-- C10: the literal `null` grouping key is encoded internally as the string
`'null'` and decoded back to `null` in the output; consequently, grouping by
a field reference, a record whose grouped value is the *string* `'null'`
lands in an output record with `_id` the literal `null`, while records
whose grouped value is the actual `null` form a separate group also
labelled `_id: null` — the output carries at least two records whose `_id`
is `null`. -/
theorem group_null_key_encoding (E : JsExt) (grouping grest : JsDoc)
    (docs : List JsDoc) (d0 d1 d2 : JsDoc)
    (h1mem : d1 ∈ docs) (h2mem : d2 ∈ docs)
    (hk1 : Aggregate.groupKeyOf grouping d1 = .str "null")
    (hk2 : Aggregate.groupKeyOf grouping d2 = Value.null) :
    (Aggregate.groupKeyOf (("_id", Value.null) :: grest) d0 = .str "null") ∧
    ((Aggregate._group E docs grouping).map (fun out => lookupField out "_id") =
      (Aggregate.firstSeenKeys (docs.map (Aggregate.groupKeyOf grouping))).map
        (fun k => if jsStrictEq k (.str "null") then Value.null else k)) ∧
    (2 ≤ ((Aggregate._group E docs grouping).map
      (fun out => lookupField out "_id")).count Value.null) := by
  refine ⟨?_, group_ids_eq E grouping docs, ?_⟩
  · rw [Aggregate.groupKeyOf, if_pos]
    rw [lookupField_cons_self]
    rfl
  · rw [group_ids_eq E grouping docs]
    have hm1 : Value.str "null" ∈
        Aggregate.firstSeenKeys (docs.map (Aggregate.groupKeyOf grouping)) :=
      mem_fsk _ _ (by rfl) (List.mem_map.mpr ⟨d1, h1mem, hk1⟩)
    have hm2 : Value.null ∈
        Aggregate.firstSeenKeys (docs.map (Aggregate.groupKeyOf grouping)) :=
      mem_fsk _ _ (by rfl) (List.mem_map.mpr ⟨d2, h2mem, hk2⟩)
    apply two_le_count_map _ _ (Value.str "null") Value.null Value.null hm1 hm2
    · decide
    · rfl
    · rfl

/-- Closed witness for the C10 theorem: two records, one whose field holds
the string `'null'` and one whose field holds the literal `null`, grouped
by that field. -/
theorem group_null_key_encoding_witness :
    (Aggregate.groupKeyOf (("_id", Value.null) :: []) [] = .str "null") ∧
    ((Aggregate._group dummyExt [[("f", .str "null")], [("f", Value.null)]]
        [("_id", .str "$f"), ("c", .obj [("$sum", .num (.fin 1))])]).map
        (fun out => lookupField out "_id") =
      (Aggregate.firstSeenKeys
        ([[("f", .str "null")], [("f", Value.null)]].map
          (Aggregate.groupKeyOf
            [("_id", .str "$f"), ("c", .obj [("$sum", .num (.fin 1))])]))).map
        (fun k => if jsStrictEq k (.str "null") then Value.null else k)) ∧
    (2 ≤ ((Aggregate._group dummyExt [[("f", .str "null")], [("f", Value.null)]]
        [("_id", .str "$f"), ("c", .obj [("$sum", .num (.fin 1))])]).map
      (fun out => lookupField out "_id")).count Value.null) :=
  group_null_key_encoding dummyExt
    [("_id", .str "$f"), ("c", .obj [("$sum", .num (.fin 1))])] []
    [[("f", .str "null")], [("f", Value.null)]] []
    [("f", .str "null")] [("f", Value.null)]
    (by decide) (by decide) (by decide) (by decide)

namespace UnwindHeap

theorem set_concat_length {α : Type} (l : List α) (x y : α) :
    (l ++ [x]).set l.length y = l ++ [y] := by
  induction l with
  | nil => rfl
  | cons a rest ih => simp [ih]

theorem isObjRef_spec (h : Heap) (v : HVal) (hv : isObjRef h v = true) :
    ∃ a fs, v = .href a ∧ h.get? a = some (.hobj fs) := by
  cases v with
  | href a =>
      rcases hget : h.get? a with _ | o
      · rw [isObjRef, hget] at hv
        cases hv
      · cases o with
        | hobj fs => exact ⟨a, fs, rfl, hget⟩
        | harr es =>
            rw [isObjRef, hget] at hv
            cases hv
  | hundefined => cases hv
  | hnull => cases hv
  | hbool b => cases hv
  | hnum n => cases hv
  | hstr s => cases hv

theorem isObjRef_append (h : Heap) (l : List HObj) (v : HVal)
    (hv : isObjRef h v = true) : isObjRef (h ++ l) v = true := by
  rcases isObjRef_spec h v hv with ⟨a, fs, rfl, hget⟩
  have ha : a < h.length := (List.get?_eq_some.mp hget).1
  rw [isObjRef, List.get?_append ha, hget]

theorem setFieldValue_single (h : Heap) (fp : String) (item : HVal)
    (hsp : splitOnDot fp = [fp]) (a : Nat) (fs : List (String × HVal))
    (ha : h.get? a = some (.hobj fs)) :
    _setFieldValue h (.href a) fp item = h.set a (.hobj (setH fs fp item)) := by
  rw [_setFieldValue]
  simp only [hsp, List.dropLast_single, List.foldl_nil]
  rw [ha]
  rfl

theorem unwindItems_toplevel (fp : String) (hsp : splitOnDot fp = [fp]) (a : Nat)
    (fs : List (String × HVal)) :
    ∀ (es : List HVal) (h : Heap), h.get? a = some (.hobj fs) →
      unwindItems fp (.href a) h es =
        (h ++ es.map (fun item => HObj.hobj (setH fs fp item)),
         (List.range es.length).map (fun i => HVal.href (h.length + i))) := by
  intro es
  induction es with
  | nil =>
      intro h ha
      rw [unwindItems]
      simp
  | cons item rest ih =>
      intro h ha
      have halt : a < h.length := (List.get?_eq_some.mp ha).1
      have hcopy : spreadCopy h (.href a) = (h ++ [.hobj fs], h.length) := by
        rw [spreadCopy, ha]
      have hget1 : (h ++ [HObj.hobj fs]).get? h.length = some (.hobj fs) :=
        List.get?_concat_length h (.hobj fs)
      have hset : _setFieldValue (h ++ [HObj.hobj fs]) (.href h.length) fp item =
          h ++ [HObj.hobj (setH fs fp item)] := by
        rw [setFieldValue_single (h ++ [HObj.hobj fs]) fp item hsp (List.length h)
          fs hget1]
        exact set_concat_length h (HObj.hobj fs) (HObj.hobj (setH fs fp item))
      have hstep : unwindItems fp (.href a) h (item :: rest) =
          ((unwindItems fp (.href a) (h ++ [HObj.hobj (setH fs fp item)]) rest).1,
           .href h.length ::
             (unwindItems fp (.href a) (h ++ [HObj.hobj (setH fs fp item)]) rest).2) := by
        rw [unwindItems, hcopy]
        simp only
        rw [hset]
      have hget2 : (h ++ [HObj.hobj (setH fs fp item)]).get? a = some (.hobj fs) := by
        rw [List.get?_append halt]
        exact ha
      rw [hstep, ih (h ++ [HObj.hobj (setH fs fp item)]) hget2, Prod.mk.injEq]
      constructor
      · rw [List.map_cons, List.append_assoc]
        rfl
      · show HVal.href (List.length h) ::
            List.map (fun i => HVal.href
              (List.length (h ++ [HObj.hobj (setH fs fp item)]) + i))
              (List.range rest.length) =
            List.map (fun i => HVal.href (List.length h + i))
              (List.range (item :: rest).length)
        rw [List.length_cons, List.range_succ_eq_map, List.map_cons, List.map_map]
        congr 1
        apply List.map_congr_left
        intro i _
        show HVal.href (List.length (h ++ [HObj.hobj (setH fs fp item)]) + i) =
          HVal.href (List.length h + Nat.succ i)
        rw [List.length_append, List.length_cons, List.length_nil]
        congr 1
        omega

theorem unwindGo_toplevel (fp : String) (hsp : splitOnDot fp = [fp]) :
    ∀ (docs : List HVal) (h : Heap),
      (∀ doc ∈ docs, isObjRef h doc = true) →
      unwindGo fp h docs = unwindSpecGo fp h docs ∧
      ∀ a, a < h.length → (unwindGo fp h docs).1.get? a = h.get? a := by
  intro docs
  induction docs with
  | nil =>
      intro h _
      exact ⟨rfl, fun a _ => rfl⟩
  | cons doc rest ih =>
      intro h hdocs
      have hdoc := hdocs doc (List.mem_cons_self _ _)
      rcases isObjRef_spec h doc hdoc with ⟨a, fs, rfl, hget⟩
      have hrest0 : ∀ d ∈ rest, isObjRef h d = true :=
        fun d hd => hdocs d (List.mem_cons_of_mem _ hd)
      rcases harr : isArrayAt h (_getFieldValue h (.href a) fp) with _ | es
      · have hcode : unwindGo fp h (.href a :: rest) =
            ((unwindGo fp h rest).1, .href a :: (unwindGo fp h rest).2) := by
          rw [unwindGo, harr]
        have hspec : unwindSpecGo fp h (.href a :: rest) =
            ((unwindSpecGo fp h rest).1, .href a :: (unwindSpecGo fp h rest).2) := by
          rw [unwindSpecGo, harr]
        rcases ih h hrest0 with ⟨heq, hpre⟩
        rw [hcode, hspec, heq]
        exact ⟨rfl, fun a' ha' => by rw [← heq]; exact hpre a' ha'⟩
      · have hblock := unwindItems_toplevel fp hsp a fs es h hget
        have hfields : fieldsOfDoc h (.href a) = fs := by
          rw [fieldsOfDoc, hget]
        have hcode : unwindGo fp h (.href a :: rest) =
            ((unwindGo fp (unwindItems fp (.href a) h es).1 rest).1,
             (unwindItems fp (.href a) h es).2 ++
               (unwindGo fp (unwindItems fp (.href a) h es).1 rest).2) := by
          rw [unwindGo, harr]
        have hspec : unwindSpecGo fp h (.href a :: rest) =
            ((unwindSpecGo fp
                (h ++ es.map (fun item => HObj.hobj (setH (fieldsOfDoc h (.href a)) fp item)))
                rest).1,
             (List.range es.length).map (fun i => HVal.href (h.length + i)) ++
               (unwindSpecGo fp
                 (h ++ es.map (fun item => HObj.hobj (setH (fieldsOfDoc h (.href a)) fp item)))
                 rest).2) := by
          rw [unwindSpecGo, harr]
        have hrest1 : ∀ d ∈ rest,
            isObjRef (h ++ es.map (fun item => HObj.hobj (setH fs fp item))) d = true :=
          fun d hd => isObjRef_append h _ d (hrest0 d hd)
        rcases ih (h ++ es.map (fun item => HObj.hobj (setH fs fp item))) hrest1
          with ⟨heq, hpre⟩
        constructor
        · rw [hcode, hspec, hblock, hfields, heq]
        · intro a' ha'
          rw [hcode]
          simp only [hblock]
          rw [hpre a' (by rw [List.length_append]; omega), List.get?_append ha']

/-- C5 counterexample: the claim fails as stated for dotted paths —
unwinding `{a: {b: [1, 2]}}` along `"a.b"` emits two records that *share*
the nested object (the spread copy is shallow), so both end up holding the
final element `2`; the claim promises records holding `1` and `2`
respectively. -/
theorem unwind_nested_alias_counterexample :
    (_unwind [.hobj [("a", .href 1)], .hobj [("b", .href 2)],
        .harr [.hnum (.fin 1), .hnum (.fin 2)]] [.href 0] "a.b").2.map
      (readback
        (_unwind [.hobj [("a", .href 1)], .hobj [("b", .href 2)],
          .harr [.hnum (.fin 1), .hnum (.fin 2)]] [.href 0] "a.b").1 5) =
      [.obj [("a", .obj [("b", .num (.fin 2))])],
       .obj [("a", .obj [("b", .num (.fin 2))])]] ∧
    Value.obj [("a", .obj [("b", .num (.fin 2))])] ≠
      .obj [("a", .obj [("b", .num (.fin 1))])] := by
  constructor
  · decide
  · decide

/-- C5 (amended): for a *top-level* (dot-free) target path — the
restriction the counterexample forces — `_unwind` behaves exactly as the
claim states: a record whose target path holds a `k`-element array is
replaced by `k` fresh records, each with the input's fields except that the
target path holds one array element in array order; records whose target
path is not an array pass through unchanged exactly once; and nothing that
already existed on the heap is modified (the heap is only extended), so no
record or shared structure is mutated. -/
theorem unwind_toplevel_correct (h : Heap) (docs : List HVal) (path : String)
    (hsp : splitOnDot (if startsWithDollar path then strDropOne path else path) =
      [if startsWithDollar path then strDropOne path else path])
    (hdocs : ∀ doc ∈ docs, isObjRef h doc = true) :
    _unwind h docs path = unwindSpec h docs path ∧
    (_unwind h docs path).1.take h.length = h := by
  rcases unwindGo_toplevel _ hsp docs h hdocs with ⟨heq, hpre⟩
  refine ⟨heq, ?_⟩
  show (unwindGo (if startsWithDollar path then strDropOne path else path)
    h docs).1.take h.length = h
  apply List.ext_get?
  intro i
  by_cases hi : i < h.length
  · rw [List.get?_take hi, hpre i hi]
  · rw [List.get?_eq_none.mpr, List.get?_eq_none.mpr]
    · omega
    · rw [List.length_take]
      omega

/-- Closed witness for the C5 amended theorem: unwinding a record whose
top-level `tags` field holds a two-element array. -/
theorem unwind_toplevel_correct_witness :
    _unwind [.hobj [("tags", .href 1), ("x", .hnum (.fin 7))],
        .harr [.hstr "a", .hstr "b"]] [.href 0] "$tags" =
      unwindSpec [.hobj [("tags", .href 1), ("x", .hnum (.fin 7))],
        .harr [.hstr "a", .hstr "b"]] [.href 0] "$tags" ∧
    (_unwind [.hobj [("tags", .href 1), ("x", .hnum (.fin 7))],
        .harr [.hstr "a", .hstr "b"]] [.href 0] "$tags").1.take
      ([HObj.hobj [("tags", .href 1), ("x", .hnum (.fin 7))],
        HObj.harr [.hstr "a", .hstr "b"]] : Heap).length =
      [.hobj [("tags", .href 1), ("x", .hnum (.fin 7))],
        .harr [.hstr "a", .hstr "b"]] :=
  unwind_toplevel_correct
    [.hobj [("tags", .href 1), ("x", .hnum (.fin 7))], .harr [.hstr "a", .hstr "b"]]
    [.href 0] "$tags" (by decide) (by decide)

end UnwindHeap

end Localgoose
